import Mathlib

/-!
# Shallow embedding of the shared-control tap-to-move core

This file embeds the pathfinding engine (`RulerPreview.findPathAStar`,
`getGridPath`, the wall/bounds oracle) and the movement state machine
(`MovementStateMachine`) of the shared-control module, and proves or refutes
the frozen specification claims about them.

Conventions of the embedding:
* JavaScript numbers are modelled as exact rationals (`ℚ`); the constants
  `1.41` and `0.59` become `141/100` and `59/100`.
* Grid offsets (`{i, j}`) are integer pairs; the string key `"i,j"` used by
  the source is injective on offsets, so sets and maps keyed by it are
  modelled as sets of / functions on cells directly.
* The host API (`canvas.grid.getTopLeftPoint`, `canvas.grid.getOffset`,
  scene bounds, the wall list) is an external collaborator: it is supplied
  as fields of a `Config` value.
* A thrown geometry-access error (missing grid or scene data) is modelled by
  the flag `geomError`; when it is set, each oracle function takes the
  branch of its `catch` handler.
* `Array.prototype.sort` is stable; it is modelled by the stable
  `List.insertionSort` with the same comparator.
-/

namespace SharedControl

/-- A grid offset `{i, j}` as produced by `canvas.grid.getOffset`. -/
abbrev Cell := ℤ × ℤ

/-- A world-space point `{x, y}`. -/
structure Point where
  x : ℚ
  y : ℚ
deriving DecidableEq, Repr

/-- The grid topologies distinguished by the source
(`CONST.GRID_TYPES.SQUARE`, `HEXODDR`, `HEXEVENR`, `HEXODDC`, `HEXEVENC`).
The source treats every type `≥ HEXODDR` as hexagonal in the heuristic. -/
inductive GridType where
  | square
  | hexOddR
  | hexEvenR
  | hexOddC
  | hexEvenC
deriving DecidableEq, Repr

/-- Whether the grid type is hexagonal (`gridType >= CONST.GRID_TYPES.HEXODDR`). -/
def GridType.isHex : GridType → Bool
  | .square => false
  | _ => true

/-- A wall document: segment coordinates `c = [x1,y1,x2,y2]`, movement
restriction `move` (`CONST.WALL_MOVEMENT_TYPES.NONE = 0`) and door state
`ds` (`CONST.WALL_DOOR_STATES.OPEN = 1`).  The source skips walls whose
coordinate array is missing or short; the embedding always supplies four
coordinates. -/
structure Wall where
  x1 : ℚ
  y1 : ℚ
  x2 : ℚ
  y2 : ℚ
  move : ℕ
  ds : ℕ
deriving DecidableEq, Repr

/-- Scene bounds rectangle as returned by `RulerPreview.getSceneBounds`. -/
structure Rect where
  x : ℚ
  y : ℚ
  width : ℚ
  height : ℚ
deriving DecidableEq, Repr

/-- The external world a pathfinding call runs against: grid parameters and
the host grid API (`getTopLeftPoint` / `getOffset`), the wall list, the
scene bounds (`none` models `getSceneBounds` returning `null`) and the
error flag (`geomError = true` models a thrown geometry-access error,
sending each oracle into its `catch` branch). -/
structure Config where
  gridType : GridType
  gridSize : ℚ
  topLeft : Cell → Point
  getOffset : Point → Cell
  walls : List Wall
  bounds : Option Rect
  geomError : Bool

/-- `Math.abs`, written out so that it evaluates inside the kernel. -/
def qabs (a : ℚ) : ℚ :=
  if a < 0 then -a else a

/-- `Math.min`, written out so that it evaluates inside the kernel. -/
def qmin (a b : ℚ) : ℚ :=
  if a ≤ b then a else b

/-- `Math.max`, written out so that it evaluates inside the kernel. -/
def qmax (a b : ℚ) : ℚ :=
  if a ≤ b then b else a

/-- `lineSegmentsIntersect` from `utils.js`: parametric intersection test;
denominators smaller than `1e-4` in absolute value are treated as parallel
(no intersection). -/
def lineSegmentsIntersect (x1 y1 x2 y2 x3 y3 x4 y4 : ℚ) : Bool :=
  let denom := ((y4 - y3) * (x2 - x1)) - ((x4 - x3) * (y2 - y1))
  if qabs denom < 1 / 10000 then
    false
  else
    let ua := (((x4 - x3) * (y1 - y3)) - ((y4 - y3) * (x1 - x3))) / denom
    let ub := (((x2 - x1) * (y1 - y3)) - ((y2 - y1) * (x1 - x3))) / denom
    decide (0 ≤ ua ∧ ua ≤ 1 ∧ 0 ≤ ub ∧ ub ≤ 1)

/-- `RulerPreview.isBlockedByWalls`: true when any non-open, movement-blocking
wall segment intersects the straight line between the two points.  The
`catch` branch of the source returns `true` ("on error, assume blocked to be
safe"); it is taken when `geomError` is set. -/
def isBlockedByWalls (cfg : Config) (pa pb : Point) : Bool :=
  if cfg.geomError then
    true
  else
    cfg.walls.any fun w =>
      if w.ds = 1 then false
      else if w.move = 0 then false
      else lineSegmentsIntersect pa.x pa.y pb.x pb.y w.x1 w.y1 w.x2 w.y2

/-- `RulerPreview.isGridOffsetWithinBounds`: when `lenient` only requires a
nonempty overlap between the cell rectangle and the scene bounds; otherwise
additionally requires the cell center to lie within one-third of a cell of
the bounds.  Missing grid data (`geomError`) or missing bounds return
`true` (the cell is allowed). -/
def isGridOffsetWithinBounds (cfg : Config) (off : Cell) (lenient : Bool) : Bool :=
  if cfg.geomError then
    true
  else
    match cfg.bounds with
    | none => true
    | some b =>
      let tl := cfg.topLeft off
      let gs := cfg.gridSize
      let overlapMinX := qmax tl.x b.x
      let overlapMinY := qmax tl.y b.y
      let overlapMaxX := qmin (tl.x + gs) (b.x + b.width)
      let overlapMaxY := qmin (tl.y + gs) (b.y + b.height)
      if overlapMinX ≥ overlapMaxX ∨ overlapMinY ≥ overlapMaxY then
        false
      else if lenient then
        true
      else
        let centerX := tl.x + gs / 2
        let centerY := tl.y + gs / 2
        let tol := gs / 3
        decide (b.x - tol ≤ centerX ∧ centerX ≤ b.x + b.width + tol ∧
          b.y - tol ≤ centerY ∧ centerY ≤ b.y + b.height + tol)

/-- `RulerPreview.isWithinBounds`: position-level bounds check used on the
snapped destination before pathfinding; missing bounds allow movement. -/
def isWithinBounds (cfg : Config) (pos : Point) : Bool :=
  match cfg.bounds with
  | none => true
  | some b =>
    decide (b.x ≤ pos.x ∧ pos.x ≤ b.x + b.width ∧
      b.y ≤ pos.y ∧ pos.y ≤ b.y + b.height)

/-- The world-space center of a cell: `getTopLeftPoint` plus half a cell. -/
def cellCenter (cfg : Config) (off : Cell) : Point :=
  ⟨(cfg.topLeft off).x + cfg.gridSize / 2, (cfg.topLeft off).y + cfg.gridSize / 2⟩

/-- `utils.getGridPosition`: snap a point to the center of its grid cell. -/
def getGridPosition (cfg : Config) (p : Point) : Point :=
  cellCenter cfg (cfg.getOffset p)

/-- The `heuristic` helper of `findPathAStar`: Manhattan distance for hex
grids, octile distance `dx + dy - 0.59 * min dx dy` for square grids. -/
def heuristic (gt : GridType) (a b : Cell) : ℚ :=
  let dx : ℚ := qabs ((a.1 : ℚ) - (b.1 : ℚ))
  let dy : ℚ := qabs ((a.2 : ℚ) - (b.2 : ℚ))
  if gt.isHex then dx + dy else dx + dy - (59 / 100) * qmin dx dy

/-- `DIAGONAL_COST` from `ruler-preview.js`. -/
def DIAGONAL_COST : ℚ := 141 / 100

/-- `MAX_PATHFINDING_ITERATIONS` from `ruler-preview.js`. -/
def MAX_PATHFINDING_ITERATIONS : ℕ := 5000

/-- The `getMoveCost` helper of `findPathAStar`: `1.41` when both coordinates
change by one (a coordinate diagonal), `1` otherwise — the test does not
depend on the grid type. -/
def getMoveCost (a b : Cell) : ℚ :=
  if (a.1 - b.1).natAbs = 1 ∧ (a.2 - b.2).natAbs = 1 then DIAGONAL_COST else 1

/-- The `getNeighbors` helper of `findPathAStar`: topology-dependent
neighbor offsets, in source order. -/
def getNeighbors (gt : GridType) (c : Cell) : List Cell :=
  match gt with
  | .hexOddR | .hexEvenR =>
    if c.2 % 2 ≠ 0 then
      [(c.1 + 1, c.2), (c.1 - 1, c.2), (c.1, c.2 - 1), (c.1 + 1, c.2 - 1),
        (c.1, c.2 + 1), (c.1 + 1, c.2 + 1)]
    else
      [(c.1 + 1, c.2), (c.1 - 1, c.2), (c.1 - 1, c.2 - 1), (c.1, c.2 - 1),
        (c.1 - 1, c.2 + 1), (c.1, c.2 + 1)]
  | .hexOddC | .hexEvenC =>
    if c.1 % 2 ≠ 0 then
      [(c.1, c.2 - 1), (c.1, c.2 + 1), (c.1 - 1, c.2), (c.1 - 1, c.2 + 1),
        (c.1 + 1, c.2), (c.1 + 1, c.2 + 1)]
    else
      [(c.1, c.2 - 1), (c.1, c.2 + 1), (c.1 - 1, c.2 - 1), (c.1 - 1, c.2),
        (c.1 + 1, c.2 - 1), (c.1 + 1, c.2)]
  | .square =>
    [(c.1 + 1, c.2), (c.1 - 1, c.2), (c.1, c.2 + 1), (c.1, c.2 - 1),
      (c.1 + 1, c.2 - 1), (c.1 - 1, c.2 - 1), (c.1 + 1, c.2 + 1), (c.1 - 1, c.2 + 1)]

/-- The wall check performed per neighbor edge: centers of the two cells fed
to `isBlockedByWalls`. -/
def edgeBlocked (cfg : Config) (a b : Cell) : Bool :=
  isBlockedByWalls cfg (cellCenter cfg a) (cellCenter cfg b)

/-- Pointwise update of a map modelled as a function into `Option`. -/
def updF {α : Type} [DecidableEq Cell] (f : Cell → Option α) (k : Cell) (v : α) :
    Cell → Option α :=
  fun c => if c = k then some v else f c

/-- The mutable search state of `findPathAStar`: the open list, the closed
set, and the `cameFrom` / `gScore` / `fScore` maps (all keyed by the cell). -/
structure AState where
  openSet : List Cell
  closedSet : List Cell
  cameFrom : Cell → Option Cell
  gScore : Cell → Option ℚ
  fScore : Cell → Option ℚ

/-- The relaxation-skip test of the source,
`tentativeGScore >= (gScore.get(neighborKey) || Infinity)`: a missing score
— and, by the semantics of `||`, a score of `0` — reads as `Infinity`, so
the comparison is false and the neighbor is relaxed. -/
def jsSkip (gn : Option ℚ) (tentative : ℚ) : Bool :=
  match gn with
  | some v => if v = 0 then false else decide (v ≤ tentative)
  | none => false

/-- The body of the neighbor loop of `findPathAStar` for one neighbor `n` of
`current`: closed neighbors are skipped; out-of-bounds neighbors are skipped
and added to the closed set; wall-blocked neighbors are skipped without
touching the closed set; otherwise the neighbor is pushed (if absent from
the open list) and relaxed. -/
def expandNeighbor (cfg : Config) (dest current : Cell) (st : AState) (n : Cell) :
    AState :=
  if n ∈ st.closedSet then st
  else if ¬ isGridOffsetWithinBounds cfg n false then
    { st with closedSet := n :: st.closedSet }
  else if edgeBlocked cfg current n then st
  else
    let moveCost := getMoveCost current n
    let tentative := ((st.gScore current).getD 0) + moveCost
    if n ∈ st.openSet then
      if jsSkip (st.gScore n) tentative then st
      else
        { st with
          cameFrom := fun c => if c = n then some current else st.cameFrom c,
          gScore := updF st.gScore n tentative,
          fScore := updF st.fScore n (tentative + heuristic cfg.gridType n dest) }
    else
      { st with
        openSet := st.openSet ++ [n],
        cameFrom := fun c => if c = n then some current else st.cameFrom c,
        gScore := updF st.gScore n tentative,
        fScore := updF st.fScore n (tentative + heuristic cfg.gridType n dest) }

/-- The `fScore` read used by the open-list sort; open-list members always
have a score, so the default is never read on reachable states. -/
def fval (st : AState) (c : Cell) : ℚ :=
  (st.fScore c).getD 0

/-- The open-list sort `openSet.sort((a, b) => fScore(a) - fScore(b))`:
a stable ascending sort by `fScore`.  `Array.prototype.sort` is stable, and
all stable sorts under the same total preorder agree, so the stable
insertion sort reproduces it. -/
def sortOpen (st : AState) : List Cell :=
  List.insertionSort (fun a b => fval st a ≤ fval st b) st.openSet

instance (st : AState) : IsTotal Cell (fun a b => fval st a ≤ fval st b) :=
  ⟨fun a b => le_total (fval st a) (fval st b)⟩

instance (st : AState) : IsTrans Cell (fun a b => fval st a ≤ fval st b) :=
  ⟨fun _ _ _ h1 h2 => le_trans h1 h2⟩

/-- Fuel for the path-reconstruction walk.  The source uses an unguarded
`while (cameFrom.has(key))` loop; the invariants proved below show every
reachable `cameFrom` chain is shorter than this bound, so the bounded walk
returns the same list as the source's loop. -/
def RECON_FUEL : ℕ := 2 * MAX_PATHFINDING_ITERATIONS + 2

/-- Path reconstruction of `findPathAStar`: walk predecessor links from the
popped node and prepend (`path.unshift(temp)`). -/
def reconstructPath (cf : Cell → Option Cell) : ℕ → Cell → List Cell → List Cell
  | 0, c, acc => c :: acc
  | fuel + 1, c, acc =>
    match cf c with
    | none => c :: acc
    | some p => reconstructPath cf fuel p (c :: acc)

/-- One run of the main loop of `findPathAStar`, with the remaining
iteration budget as fuel.  Returns the result together with the number of
loop iterations performed.  Exhausting the budget and exhausting the open
list both return `none`. -/
def aStarLoop (cfg : Config) (dest : Cell) : ℕ → AState → Option (List Cell) × ℕ
  | 0, _ => (none, 0)
  | fuel + 1, st =>
    match sortOpen st with
    | [] => (none, 0)
    | current :: rest =>
      if current = dest then
        (some (reconstructPath st.cameFrom RECON_FUEL current []), 1)
      else
        let st1 : AState :=
          { st with openSet := rest, closedSet := current :: st.closedSet }
        let st2 := (getNeighbors cfg.gridType current).foldl
          (expandNeighbor cfg dest current) st1
        let r := aStarLoop cfg dest fuel st2
        (r.1, r.2 + 1)

/-- The initial search state of `findPathAStar`. -/
def initState (cfg : Config) (startOffset endOffset : Cell) : AState :=
  { openSet := [startOffset]
    closedSet := []
    cameFrom := fun _ => none
    gScore := updF (fun _ => none) startOffset (0 : ℚ)
    fScore := updF (fun _ => none) startOffset
      (heuristic cfg.gridType startOffset endOffset) }

/-- `RulerPreview.findPathAStar` together with the number of loop
iterations it performed: a lenient bounds check on the destination, then
the A* loop under the iteration budget. -/
def findPathAStarIter (cfg : Config) (startOffset endOffset : Cell) :
    Option (List Cell) × ℕ :=
  if ¬ isGridOffsetWithinBounds cfg endOffset true then (none, 0)
  else aStarLoop cfg endOffset MAX_PATHFINDING_ITERATIONS
    (initState cfg startOffset endOffset)

/-- `RulerPreview.findPathAStar`: the returned path (or `null`). -/
def findPathAStar (cfg : Config) (startOffset endOffset : Cell) :
    Option (List Cell) :=
  (findPathAStarIter cfg startOffset endOffset).1

/-- `RulerPreview.getGridPath`: convert the positions to offsets, run A*,
and on success return the path converted to cell centers with the starting
square removed (`slice(1)`); a missing or empty result yields `null`. -/
def getGridPath (cfg : Config) (origin destination : Point) : Option (List Point) :=
  let startOffset := cfg.getOffset origin
  let endOffset := cfg.getOffset destination
  match findPathAStar cfg startOffset endOffset with
  | some p =>
    if p.length > 0 then some ((p.drop 1).map (cellCenter cfg)) else none
  | none => none

/-- `isPathClear` from `utils.js` (the top-level collision query): `true`
when no closed, movement-blocking wall crosses any path segment.  A missing
wall layer or a short waypoint list returns `true`; the `catch` branch
("default to blocked if collision check fails") returns `false` and is
taken when `geomError` is set. -/
def isPathClear (wallsAvailable : Bool) (geomError : Bool) (walls : List Wall)
    (waypoints : List Point) : Bool :=
  if ¬ wallsAvailable ∨ waypoints.length < 2 then true
  else if geomError then false
  else
    (waypoints.zip waypoints.tail).all fun seg =>
      walls.all fun w =>
        if w.ds = 1 then true
        else if w.move = 0 then true
        else ¬ lineSegmentsIntersect seg.1.x seg.1.y seg.2.x seg.2.y w.x1 w.y1 w.x2 w.y2

/-! ## Path validity

The comparison class of the optimality claims: a step is valid when it
moves to a neighbor under the active topology, the target cell passes the
strict bounds check (the check the search itself applies to every expanded
neighbor; the origin cell is never checked by the source) and the edge is
not blocked by a wall. -/

/-- One valid movement step from `a` to `b`. -/
def ValidStep (cfg : Config) (a b : Cell) : Prop :=
  b ∈ getNeighbors cfg.gridType a ∧
  isGridOffsetWithinBounds cfg b false = true ∧
  edgeBlocked cfg a b = false

instance (cfg : Config) (a b : Cell) : Decidable (ValidStep cfg a b) :=
  inferInstanceAs (Decidable (b ∈ getNeighbors cfg.gridType a ∧
    isGridOffsetWithinBounds cfg b false = true ∧ edgeBlocked cfg a b = false))

/-- The movement cost of a cell path: the sum of `getMoveCost` over its
consecutive pairs. -/
def pathCost : List Cell → ℚ
  | [] => 0
  | [_] => 0
  | a :: b :: rest => getMoveCost a b + pathCost (b :: rest)

/-- A wall-respecting, in-bounds path from `s` to `t`. -/
def IsPath (cfg : Config) (s t : Cell) (p : List Cell) : Prop :=
  p.head? = some s ∧ p.getLast? = some t ∧ List.Chain' (ValidStep cfg) p

/-- Executable checker for `List.Chain' (ValidStep cfg)`. -/
def chainB (cfg : Config) : List Cell → Bool
  | [] => true
  | [_] => true
  | a :: b :: rest => decide (ValidStep cfg a b) && chainB cfg (b :: rest)

theorem chainB_iff (cfg : Config) : ∀ p : List Cell,
    chainB cfg p = true ↔ List.Chain' (ValidStep cfg) p
  | [] => by simp [chainB]
  | [a] => by simp [chainB]
  | a :: b :: rest => by
    simp [chainB, List.chain'_cons, chainB_iff cfg (b :: rest)]

instance (cfg : Config) (s t : Cell) (p : List Cell) : Decidable (IsPath cfg s t p) :=
  decidable_of_iff (p.head? = some s ∧ p.getLast? = some t ∧ chainB cfg p = true)
    (by unfold IsPath; rw [chainB_iff])

/-- The predecessor chain recorded by `cameFrom`, as walked by the path
reconstruction: the list ends at the given cell and starts at a cell with
no recorded predecessor. -/
inductive ChainTo (cf : Cell → Option Cell) : Cell → List Cell → Prop where
  | base (c : Cell) : cf c = none → ChainTo cf c [c]
  | step (c p : Cell) (l : List Cell) :
      cf c = some p → ChainTo cf p l → ChainTo cf c (l ++ [c])

/-- The search-state invariant of the A* loop that holds for every grid
topology, after `k` node expansions: bookkeeping of the open list, the
closed set and the three score maps, and the shape of the `cameFrom`
forest. -/
structure BaseInv (cfg : Config) (s t : Cell) (k : ℕ) (st : AState) : Prop where
  start_g : st.gScore s = some 0
  g_zero_start : ∀ c, st.gScore c = some 0 → c = s
  start_mem : s ∈ st.closedSet ∨ st.openSet = [s]
  open_nodup : st.openSet.Nodup
  open_closed : ∀ c ∈ st.openSet, c ∉ st.closedSet
  open_inB : ∀ c ∈ st.openSet,
    isGridOffsetWithinBounds cfg c false = true ∨ c = s
  open_gf : ∀ c ∈ st.openSet, ∃ v, st.gScore c = some v ∧
    st.fScore c = some (v + heuristic cfg.gridType c t)
  g_dom : ∀ c v, st.gScore c = some v → c ∈ st.openSet ∨ c ∈ st.closedSet
  g_inB : ∀ c v, st.gScore c = some v →
    c = s ∨ isGridOffsetWithinBounds cfg c false = true
  closed_oob : ∀ c ∈ st.closedSet,
    (st.gScore c).isSome ∨ isGridOffsetWithinBounds cfg c false = false
  cf_start : st.cameFrom s = none
  root : ∀ c, (st.gScore c).isSome → st.cameFrom c = none → c = s
  edge : ∀ c p, st.cameFrom c = some p → ∃ vp vc, st.gScore p = some vp ∧
    st.gScore c = some vc ∧ vc = vp + getMoveCost p c ∧ ValidStep cfg p c ∧
    p ∈ st.closedSet
  g_nonneg : ∀ c v, st.gScore c = some v → 0 ≤ v
  gbound : ∀ c v, st.gScore c = some v → v ≤ (141 / 100) * k

/-- The additional invariant carrying the optimality argument: every closed
node with a score holds an optimal score, and every closed node with a
score has each of its valid-step successors either closed or in the open
list with a relaxed score. -/
structure OptInv (cfg : Config) (s t : Cell) (k : ℕ) (st : AState)
    extends BaseInv cfg s t k st : Prop where
  closed_opt : ∀ c ∈ st.closedSet, ∀ v, st.gScore c = some v →
    ∀ q, IsPath cfg s c q → v ≤ pathCost q
  closed_exp : ∀ c ∈ st.closedSet, (st.gScore c).isSome →
    ∀ y, ValidStep cfg c y → y ∈ st.closedSet ∨
      (y ∈ st.openSet ∧ ∃ vy vc, st.gScore y = some vy ∧
        st.gScore c = some vc ∧ vy ≤ vc + getMoveCost c y)

/-- Consistency of the heuristic with the move costs: the property under
which A* with a closed set returns optimal paths.  It holds for the square
topology and fails for the hex topologies. -/
def HeurConsistent (cfg : Config) (t : Cell) : Prop :=
  ∀ a b, b ∈ getNeighbors cfg.gridType a →
    heuristic cfg.gridType a t ≤ getMoveCost a b + heuristic cfg.gridType b t

/-- The invariant as it stands in the middle of one node expansion, after
the node `current` has been popped and closed: the full `BaseInv` at count
`k + 1`, plus the facts about `s` and `current` the neighbor loop relies
on. -/
structure MidBase (cfg : Config) (s t current : Cell) (k : ℕ) (st : AState) : Prop where
  base : BaseInv cfg s t (k + 1) st
  s_closed : s ∈ st.closedSet
  cur_closed : current ∈ st.closedSet
  cur_g : ∃ v, st.gScore current = some v ∧ v ≤ (141 / 100) * k

/-- The optimality invariant in the middle of one node expansion: `current`
already counts as fully expanded for the neighbors in `done`. -/
structure MidOpt (cfg : Config) (s t current : Cell) (k : ℕ) (st : AState)
    (done : List Cell) extends MidBase cfg s t current k st : Prop where
  closed_opt : ∀ c ∈ st.closedSet, ∀ v, st.gScore c = some v →
    ∀ q, IsPath cfg s c q → v ≤ pathCost q
  closed_exp_part : ∀ c ∈ st.closedSet, (st.gScore c).isSome →
    ∀ y, ValidStep cfg c y → (c = current → y ∈ done) → y ∈ st.closedSet ∨
      (y ∈ st.openSet ∧ ∃ vy vc, st.gScore y = some vy ∧
        st.gScore c = some vc ∧ vy ≤ vc + getMoveCost c y)

/-! ## Movement state machine (`state-machine.js`, document-flag variant)

The observable state of `MovementStateMachine` and of `RulerPreview` is
embedded as records; user-facing notifications are collected in a list.
Purely visual effects (PIXI graphics, the selection highlight, the distance
label) and the `lastTapTime` bookkeeping field are not modelled: no claim
refers to them and they influence no modelled branch. -/

/-- The `States` enumeration of `state-machine.js`. -/
inductive MState where
  | IDLE
  | AWAITING_DESTINATION
  | PREVIEWING_PATH
  | EXECUTING_MOVEMENT
  | ERROR
deriving DecidableEq, Repr

/-- A token as the workflow sees it: identifier and position. -/
structure Token where
  id : ℕ
  x : ℚ
  y : ℚ
deriving DecidableEq, Repr

/-- User-facing notifications emitted by the modelled code paths. -/
inductive Notif where
  | warnOutOfBounds
  | errorMovementBlocked
  | warnNoPermission
  | infoTokenLocked
  | infoOverridingLock
deriving DecidableEq, Repr

/-- The observable state of `RulerPreview`. -/
structure RPState where
  activeToken : Option ℕ
  targetDestination : Option Point
  simulatedDragActive : Bool
  currentPath : List Point
deriving DecidableEq, Repr

/-- The state set by the `RulerPreview` constructor. -/
def initRPState : RPState :=
  { activeToken := none
    targetDestination := none
    simulatedDragActive := false
    currentPath := [] }

/-- `RulerPreview.clearPreview`: reset the preview state. -/
def clearPreview (_rp : RPState) : RPState :=
  initRPState

/-- The observable state of `MovementStateMachine`. -/
structure SMState where
  currentState : MState
  selectedToken : Option Token
  previewDestination : Option Point
  lastTapPosition : Option Point
deriving DecidableEq, Repr

/-- The state set by the `MovementStateMachine` constructor. -/
def initSMState : SMState :=
  { currentState := .IDLE
    selectedToken := none
    previewDestination := none
    lastTapPosition := none }

/-- `RulerPreview.showPreview`: record the active token and raw destination,
check the snapped destination against the scene bounds, run `getGridPath`,
and either surface the failure (out of bounds / no path / already there) or
commit the path by the simulated drag.  The distance computation and the
color coding feed only the drawn overlay and are not modelled. -/
def showPreview (cfg : Config) (token : Token) (destination : Point)
    (rp : RPState) : RPState × List Notif :=
  let rp1 := { rp with
    activeToken := some token.id, targetDestination := some destination }
  let origin := getGridPosition cfg ⟨token.x, token.y⟩
  let snappedDest := getGridPosition cfg destination
  if ¬ isWithinBounds cfg snappedDest then
    (rp1, [.warnOutOfBounds])
  else
    match getGridPath cfg origin snappedDest with
    | some gridPath =>
      if gridPath.isEmpty then
        if cfg.getOffset origin = cfg.getOffset snappedDest then
          (clearPreview rp1, [])
        else
          (clearPreview rp1, [.errorMovementBlocked])
      else
        ({ rp1 with simulatedDragActive := true, currentPath := gridPath }, [])
    | none =>
      if cfg.getOffset origin = cfg.getOffset snappedDest then
        (clearPreview rp1, [])
      else
        (clearPreview rp1, [.errorMovementBlocked])

/-- `MovementStateMachine.previewMovement`: guard on the state and the
selection, then commit the preview destination and the snapped tap anchor,
transition to `PREVIEWING_PATH`, and delegate to `showPreview`.  Returns
the success flag together with the two updated states and the emitted
notifications. -/
def previewMovement (cfg : Config) (destination : Point) (st : SMState)
    (rp : RPState) : Bool × SMState × RPState × List Notif :=
  if st.currentState ≠ .AWAITING_DESTINATION ∧ st.currentState ≠ .PREVIEWING_PATH then
    (false, st, rp, [])
  else
    match st.selectedToken with
    | none => (false, st, rp, [])
    | some token =>
      let snappedDestination := getGridPosition cfg destination
      let st1 : SMState := { st with
        previewDestination := some destination,
        lastTapPosition := some snappedDestination,
        currentState := .PREVIEWING_PATH }
      let res := showPreview cfg token destination rp
      (true, st1, res.1, res.2)

/-- The lock flag `flags.shared-control.lockedBy` on a token document. -/
structure LockData where
  userId : ℕ
  timestamp : ℤ
deriving DecidableEq, Repr

/-- The acting identity (`game.user`). -/
structure User where
  id : ℕ
  isGM : Bool
deriving DecidableEq, Repr

/-- A token document as `selectToken` consults it: the token, whether the
current user owns it (`token.isOwner`), and the lock flag. -/
structure TokenDoc where
  token : Token
  isOwner : Bool
  lockedBy : Option LockData
deriving DecidableEq, Repr

/-- `utils.canMoveToken`: ownership or GM rights. -/
def canMoveToken (user : User) (doc : TokenDoc) : Bool :=
  doc.isOwner || user.isGM

/-- `MovementStateMachine.selectToken` (document-flag variant): permission
check, then the lock guard — a lock held by a different user blocks a
non-GM caller unless it is at least five minutes (300000 ms) old, while a
GM always proceeds — and on success the token is locked with the caller's
identity and the current time and the machine moves to
`AWAITING_DESTINATION`.  Returns the success flag, the updated machine
state, the updated token document and the emitted notifications. -/
def selectToken (user : User) (now : ℤ) (doc : TokenDoc) (st : SMState) :
    Bool × SMState × TokenDoc × List Notif :=
  if ¬ canMoveToken user doc then
    (false, st, doc, [.warnNoPermission])
  else
    let proceed : List Notif → Bool × SMState × TokenDoc × List Notif :=
      fun notifs =>
        (true,
          { st with
            selectedToken := some doc.token,
            currentState := .AWAITING_DESTINATION,
            previewDestination := none },
          { doc with lockedBy := some ⟨user.id, now⟩ },
          notifs)
    match doc.lockedBy with
    | some lockData =>
      if lockData.userId ≠ user.id then
        if user.isGM then
          proceed [.infoOverridingLock]
        else
          let lockAge := now - lockData.timestamp
          if lockAge < 300000 then
            (false, st, doc, [.infoTokenLocked])
          else
            proceed []
      else
        proceed []
    | none => proceed []

/-! ## Socket-lock state machine variant and JavaScript collections

The broadcast-lock variant of `MovementStateMachine` stores remote locks in
`this.lockedTokens`, created by its constructor as `new Set()`, while
`lockToken` / `unlockToken` call `.set(tokenId, userId)` / `.delete(tokenId)`
on it.  To settle the idempotency claim the relevant JavaScript semantics is
embedded: a collection value is either a `Set` or a `Map`;
`Map.prototype` has `set`, `Set.prototype` does not, and calling a missing
method throws a `TypeError`.  `delete` exists on both prototypes. -/

/-- A JavaScript collection value: a `Set` of strings or a `Map` from
strings to strings (token ids and user ids are strings in the source). -/
inductive JSColl where
  | jsSet (elems : List String)
  | jsMap (entries : List (String × String))
deriving DecidableEq, Repr

/-- A JavaScript runtime error. -/
inductive JSError where
  | typeError (msg : String)
deriving DecidableEq, Repr

/-- `Map.prototype.set` entry update: replace the key's entry or append. -/
def updateEntries : List (String × String) → String → String → List (String × String)
  | [], k, v => [(k, v)]
  | (k', v') :: rest, k, v =>
    if k' = k then (k, v) :: rest else (k', v') :: updateEntries rest k v

/-- Calling `.set(k, v)` on a collection: a `Map` stores the entry; a `Set`
has no `set` method, so the call throws a `TypeError`. -/
def JSColl.callSet : JSColl → String → String → Except JSError JSColl
  | .jsSet _, _, _ => .error (.typeError "this.lockedTokens.set is not a function")
  | .jsMap es, k, v => .ok (.jsMap (updateEntries es k v))

/-- Calling `.delete(k)` on a collection: both prototypes provide it. -/
def JSColl.callDelete : JSColl → String → Except JSError JSColl
  | .jsSet es, k => .ok (.jsSet (es.filter fun e => e ≠ k))
  | .jsMap es, k => .ok (.jsMap (es.filter fun e => e.1 ≠ k))

/-- The lock store of the socket-lock `MovementStateMachine` variant. -/
structure SM2State where
  lockedTokens : JSColl
deriving DecidableEq, Repr

/-- The constructor of the socket-lock variant:
`this.lockedTokens = new Set()`. -/
def mkStateMachine2 : SM2State :=
  { lockedTokens := .jsSet [] }

/-- `MovementStateMachine.lockToken` (socket-lock variant):
`this.lockedTokens.set(tokenId, userId)`. -/
def lockToken (st : SM2State) (tokenId userId : String) : Except JSError SM2State := do
  let c ← st.lockedTokens.callSet tokenId userId
  pure { st with lockedTokens := c }

/-- `MovementStateMachine.unlockToken` (socket-lock variant):
`this.lockedTokens.delete(tokenId)`. -/
def unlockToken (st : SM2State) (tokenId : String) : Except JSError SM2State := do
  let c ← st.lockedTokens.callDelete tokenId
  pure { st with lockedTokens := c }

/-- The `preUpdateToken` hook registered by `TouchWorkflowHandler`: while
the module is enabled, the updated token is the machine's selected token
and the machine is in preview mode, updates initiated by another user are
vetoed (`false`); everything else passes (`true`). -/
def preUpdateToken (enabled : Bool) (st : SMState) (tokenDocId : ℕ)
    (userId myId : ℕ) : Bool :=
  if ¬ enabled then true
  else if (st.selectedToken.map Token.id = some tokenDocId) ∧
      st.currentState = .PREVIEWING_PATH then
    if userId ≠ myId then false else true
  else true

/-! ## Specification-side predicate

Stated from the specification's words, for comparison with the source's
bounds check: a cell has at least partial geometric overlap with the scene
bounds when the open overlap rectangle is nonempty. -/

/-- Spec reading of "partial geometric overlap between the cell rectangle
and scene bounds". -/
def cellOverlapsScene (cfg : Config) (b : Rect) (off : Cell) : Prop :=
  qmax (cfg.topLeft off).x b.x < qmin ((cfg.topLeft off).x + cfg.gridSize) (b.x + b.width) ∧
  qmax (cfg.topLeft off).y b.y < qmin ((cfg.topLeft off).y + cfg.gridSize) (b.y + b.height)

instance (cfg : Config) (b : Rect) (off : Cell) : Decidable (cellOverlapsScene cfg b off) :=
  inferInstanceAs (Decidable (_ < _ ∧ _ < _))

/-! ## Concrete scenes used by witnesses and counterexamples -/

/-- A plain 10×10-cell square-grid scene: cell size 100, scene bounds
1000×1000, no walls, row-major grid API. -/
def sqCfg : Config :=
  { gridType := .square
    gridSize := 100
    topLeft := fun c => ⟨100 * c.2, 100 * c.1⟩
    getOffset := fun p => ((p.y / 100).floor, (p.x / 100).floor)
    walls := []
    bounds := some ⟨0, 0, 1000, 1000⟩
    geomError := false }

/-- The square scene with scene bounds 210×100: the cells `(0,0)` and
`(0,1)` lie inside, the cell `(0,2)` overlaps the bounds by a 10-unit strip
but its center `(250, 50)` lies more than a third of a cell outside. -/
def c6Cfg : Config :=
  { sqCfg with bounds := some ⟨0, 0, 210, 100⟩ }

/-- The in-bounds region of the hex counterexample scene. -/
def hexRegion : List Cell :=
  [(0, 0), (0, 1), (1, 1), (1, 2), (1, 3), (2, 0), (2, 3), (3, 0), (3, 1),
    (3, 2), (3, 3)]

/-- A pointy-top hex scene (odd rows offset) whose grid API places the
eleven cells of `hexRegion` inside the scene bounds and every other cell
outside them; no walls. -/
def hexCfg : Config :=
  { gridType := .hexOddR
    gridSize := 100
    topLeft := fun c => if c ∈ hexRegion then ⟨450, 450⟩ else ⟨2000, 2000⟩
    getOffset := fun _ => (0, 0)
    walls := []
    bounds := some ⟨0, 0, 1000, 1000⟩
    geomError := false }

/-- Four closed, movement-blocking wall segments forming a ring along the
boundary of the cell `(1,1)` of `sqCfg` (world rectangle `[100,200]²`). -/
def ringWalls : List Wall :=
  [⟨100, 100, 200, 100, 1, 0⟩, ⟨200, 100, 200, 200, 1, 0⟩,
    ⟨200, 200, 100, 200, 1, 0⟩, ⟨100, 200, 100, 100, 1, 0⟩]

/-- A 3×3-cell square scene whose center cell `(1,1)` is walled off on all
sides. -/
def c5Cfg : Config :=
  { sqCfg with walls := ringWalls, bounds := some ⟨0, 0, 300, 300⟩ }

/-- The square scene in the failed-geometry condition: a geometry access
error is raised by every oracle query. -/
def errCfg : Config :=
  { sqCfg with geomError := true }

/-! # Lemmas -/

theorem qabs_eq (a : ℚ) : qabs a = |a| := by
  unfold qabs
  split
  · rw [abs_of_neg (by assumption)]
  · rw [abs_of_nonneg (le_of_not_lt (by assumption))]

theorem qmin_eq (a b : ℚ) : qmin a b = min a b := by
  unfold qmin
  split
  · rw [min_eq_left (by assumption)]
  · rw [min_eq_right (le_of_not_le (by assumption))]

theorem qmax_eq (a b : ℚ) : qmax a b = max a b := by
  unfold qmax
  split
  · rw [max_eq_right (by assumption)]
  · rw [max_eq_left (le_of_not_le (by assumption))]

theorem getMoveCost_ge_one (a b : Cell) : 1 ≤ getMoveCost a b := by
  unfold getMoveCost DIAGONAL_COST
  split <;> norm_num

theorem getMoveCost_le (a b : Cell) : getMoveCost a b ≤ 141 / 100 := by
  unfold getMoveCost DIAGONAL_COST
  split <;> norm_num

theorem pathCost_nonneg (p : List Cell) : 0 ≤ pathCost p := by
  induction p with
  | nil => simp [pathCost]
  | cons a rest ih =>
    cases rest with
    | nil => simp [pathCost]
    | cons b r =>
      have h1 := getMoveCost_ge_one a b
      simp only [pathCost]
      linarith

theorem pathCost_append (l1 : List Cell) (a : Cell) (l2 : List Cell) :
    pathCost (l1 ++ a :: l2) = pathCost (l1 ++ [a]) + pathCost (a :: l2) := by
  induction l1 with
  | nil => simp [pathCost]
  | cons x l1' ih =>
    cases l1' with
    | nil =>
      cases l2 with
      | nil => simp [pathCost]
      | cons z l2' => simp [pathCost]
    | cons y l1'' =>
      simp only [List.cons_append, List.append_eq, pathCost] at ih ⊢
      rw [ih]
      ring

theorem pathCost_concat {l : List Cell} {a : Cell} (b : Cell)
    (h : l.getLast? = some a) : pathCost (l ++ [b]) = pathCost l + getMoveCost a b := by
  induction l with
  | nil => simp at h
  | cons x rest ih =>
    cases rest with
    | nil =>
      simp at h
      subst h
      simp [pathCost]
    | cons y r =>
      rw [List.getLast?_cons_cons] at h
      simp only [List.cons_append, List.append_eq, pathCost] at ih ⊢
      rw [ih h]
      ring

theorem heuristic_self (gt : GridType) (c : Cell) : heuristic gt c c = 0 := by
  unfold heuristic
  split <;> simp [qabs_eq, qmin_eq]

theorem oct_eq (x y : ℚ) :
    x + y - (59 / 100) * min x y = (41 / 100) * (x + y) + (59 / 100) * max x y := by
  rcases le_total x y with h | h
  · rw [min_eq_left h, max_eq_right h]; ring
  · rw [min_eq_right h, max_eq_left h]; ring

theorem oct_mono {x y X Y : ℚ} (hx : x ≤ X) (hy : y ≤ Y) :
    x + y - (59 / 100) * min x y ≤ X + Y - (59 / 100) * min X Y := by
  rw [oct_eq, oct_eq]
  have h := max_le_max hx hy
  linarith

theorem oct_step_x (x y : ℚ) :
    (x + 1) + y - (59 / 100) * min (x + 1) y ≤
      (x + y - (59 / 100) * min x y) + 1 := by
  rw [oct_eq, oct_eq]
  have h1 : max (x + 1) y ≤ max x y + 1 :=
    max_le (by linarith [le_max_left x y]) (by linarith [le_max_right x y])
  linarith

theorem oct_step_y (x y : ℚ) :
    x + (y + 1) - (59 / 100) * min x (y + 1) ≤
      (x + y - (59 / 100) * min x y) + 1 := by
  rw [oct_eq, oct_eq]
  have h1 : max x (y + 1) ≤ max x y + 1 :=
    max_le (by linarith [le_max_left x y]) (by linarith [le_max_right x y])
  linarith

theorem oct_step_diag (x y : ℚ) :
    (x + 1) + (y + 1) - (59 / 100) * min (x + 1) (y + 1) ≤
      (x + y - (59 / 100) * min x y) + 141 / 100 := by
  have h1 : min (x + 1) (y + 1) = min x y + 1 := by
    rcases le_total x y with h | h
    · rw [min_eq_left h, min_eq_left (by linarith : x + 1 ≤ y + 1)]
    · rw [min_eq_right h, min_eq_right (by linarith : y + 1 ≤ x + 1)]
  rw [h1]
  ring_nf
  linarith

theorem abs_cast_natAbs (z : ℤ) : |(z : ℚ)| = ((z.natAbs : ℚ)) := by
  rw [Int.cast_natAbs, Int.cast_abs]

theorem heuristic_square_step (a b t : Cell)
    (h1 : (a.1 - b.1).natAbs ≤ 1) (h2 : (a.2 - b.2).natAbs ≤ 1) :
    heuristic .square a t ≤ getMoveCost a b + heuristic .square b t := by
  have hx : |(a.1 : ℚ) - (t.1 : ℚ)| ≤ |(b.1 : ℚ) - (t.1 : ℚ)| + ((a.1 - b.1).natAbs : ℚ) := by
    rw [← abs_cast_natAbs]
    have : (a.1 : ℚ) - (t.1 : ℚ) = ((b.1 : ℚ) - (t.1 : ℚ)) + ((a.1 : ℚ) - (b.1 : ℚ)) := by
      ring
    rw [this]
    calc |((b.1 : ℚ) - (t.1 : ℚ)) + ((a.1 : ℚ) - (b.1 : ℚ))| ≤
        |(b.1 : ℚ) - (t.1 : ℚ)| + |(a.1 : ℚ) - (b.1 : ℚ)| := abs_add _ _
      _ = |(b.1 : ℚ) - (t.1 : ℚ)| + |((a.1 - b.1 : ℤ) : ℚ)| := by push_cast; ring_nf
  have hy : |(a.2 : ℚ) - (t.2 : ℚ)| ≤ |(b.2 : ℚ) - (t.2 : ℚ)| + ((a.2 - b.2).natAbs : ℚ) := by
    rw [← abs_cast_natAbs]
    have : (a.2 : ℚ) - (t.2 : ℚ) = ((b.2 : ℚ) - (t.2 : ℚ)) + ((a.2 : ℚ) - (b.2 : ℚ)) := by
      ring
    rw [this]
    calc |((b.2 : ℚ) - (t.2 : ℚ)) + ((a.2 : ℚ) - (b.2 : ℚ))| ≤
        |(b.2 : ℚ) - (t.2 : ℚ)| + |(a.2 : ℚ) - (b.2 : ℚ)| := abs_add _ _
      _ = |(b.2 : ℚ) - (t.2 : ℚ)| + |((a.2 - b.2 : ℤ) : ℚ)| := by push_cast; ring_nf
  simp only [heuristic, GridType.isHex, if_neg (by simp : ¬(false = true)),
    qabs_eq, qmin_eq]
  by_cases hD : (a.1 - b.1).natAbs = 1 ∧ (a.2 - b.2).natAbs = 1
  · have hc : getMoveCost a b = 141 / 100 := by
      unfold getMoveCost DIAGONAL_COST
      rw [if_pos hD]
    rw [hc]
    have hx1 : |(a.1 : ℚ) - (t.1 : ℚ)| ≤ |(b.1 : ℚ) - (t.1 : ℚ)| + 1 := by
      rw [hD.1] at hx; exact_mod_cast hx
    have hy1 : |(a.2 : ℚ) - (t.2 : ℚ)| ≤ |(b.2 : ℚ) - (t.2 : ℚ)| + 1 := by
      rw [hD.2] at hy; exact_mod_cast hy
    calc |(a.1 : ℚ) - (t.1 : ℚ)| + |(a.2 : ℚ) - (t.2 : ℚ)| -
        (59 / 100) * min (|(a.1 : ℚ) - (t.1 : ℚ)|) (|(a.2 : ℚ) - (t.2 : ℚ)|) ≤
        (|(b.1 : ℚ) - (t.1 : ℚ)| + 1) + (|(b.2 : ℚ) - (t.2 : ℚ)| + 1) -
          (59 / 100) * min (|(b.1 : ℚ) - (t.1 : ℚ)| + 1) (|(b.2 : ℚ) - (t.2 : ℚ)| + 1) :=
        oct_mono hx1 hy1
      _ ≤ (|(b.1 : ℚ) - (t.1 : ℚ)| + |(b.2 : ℚ) - (t.2 : ℚ)| -
          (59 / 100) * min (|(b.1 : ℚ) - (t.1 : ℚ)|) (|(b.2 : ℚ) - (t.2 : ℚ)|)) + 141 / 100 :=
        oct_step_diag _ _
      _ = 141 / 100 + (|(b.1 : ℚ) - (t.1 : ℚ)| + |(b.2 : ℚ) - (t.2 : ℚ)| -
          (59 / 100) * min (|(b.1 : ℚ) - (t.1 : ℚ)|) (|(b.2 : ℚ) - (t.2 : ℚ)|)) := by ring
  · have hc : getMoveCost a b = 1 := by
      unfold getMoveCost DIAGONAL_COST
      rw [if_neg hD]
    rw [hc]
    have hcases : (a.1 - b.1).natAbs = 0 ∨ (a.2 - b.2).natAbs = 0 := by omega
    rcases hcases with h0 | h0
    · have hx0 : |(a.1 : ℚ) - (t.1 : ℚ)| ≤ |(b.1 : ℚ) - (t.1 : ℚ)| := by
        rw [h0] at hx; simpa using hx
      have hy1 : |(a.2 : ℚ) - (t.2 : ℚ)| ≤ |(b.2 : ℚ) - (t.2 : ℚ)| + 1 := by
        have : ((a.2 - b.2).natAbs : ℚ) ≤ 1 := by exact_mod_cast h2
        linarith
      calc |(a.1 : ℚ) - (t.1 : ℚ)| + |(a.2 : ℚ) - (t.2 : ℚ)| -
          (59 / 100) * min (|(a.1 : ℚ) - (t.1 : ℚ)|) (|(a.2 : ℚ) - (t.2 : ℚ)|) ≤
          |(b.1 : ℚ) - (t.1 : ℚ)| + (|(b.2 : ℚ) - (t.2 : ℚ)| + 1) -
            (59 / 100) * min (|(b.1 : ℚ) - (t.1 : ℚ)|) (|(b.2 : ℚ) - (t.2 : ℚ)| + 1) :=
          oct_mono hx0 hy1
        _ ≤ (|(b.1 : ℚ) - (t.1 : ℚ)| + |(b.2 : ℚ) - (t.2 : ℚ)| -
            (59 / 100) * min (|(b.1 : ℚ) - (t.1 : ℚ)|) (|(b.2 : ℚ) - (t.2 : ℚ)|)) + 1 :=
          oct_step_y _ _
        _ = 1 + (|(b.1 : ℚ) - (t.1 : ℚ)| + |(b.2 : ℚ) - (t.2 : ℚ)| -
            (59 / 100) * min (|(b.1 : ℚ) - (t.1 : ℚ)|) (|(b.2 : ℚ) - (t.2 : ℚ)|)) := by ring
    · have hy0 : |(a.2 : ℚ) - (t.2 : ℚ)| ≤ |(b.2 : ℚ) - (t.2 : ℚ)| := by
        rw [h0] at hy; simpa using hy
      have hx1 : |(a.1 : ℚ) - (t.1 : ℚ)| ≤ |(b.1 : ℚ) - (t.1 : ℚ)| + 1 := by
        have : ((a.1 - b.1).natAbs : ℚ) ≤ 1 := by exact_mod_cast h1
        linarith
      calc |(a.1 : ℚ) - (t.1 : ℚ)| + |(a.2 : ℚ) - (t.2 : ℚ)| -
          (59 / 100) * min (|(a.1 : ℚ) - (t.1 : ℚ)|) (|(a.2 : ℚ) - (t.2 : ℚ)|) ≤
          (|(b.1 : ℚ) - (t.1 : ℚ)| + 1) + |(b.2 : ℚ) - (t.2 : ℚ)| -
            (59 / 100) * min (|(b.1 : ℚ) - (t.1 : ℚ)| + 1) (|(b.2 : ℚ) - (t.2 : ℚ)|) :=
          oct_mono hx1 hy0
        _ ≤ (|(b.1 : ℚ) - (t.1 : ℚ)| + |(b.2 : ℚ) - (t.2 : ℚ)| -
            (59 / 100) * min (|(b.1 : ℚ) - (t.1 : ℚ)|) (|(b.2 : ℚ) - (t.2 : ℚ)|)) + 1 :=
          oct_step_x _ _
        _ = 1 + (|(b.1 : ℚ) - (t.1 : ℚ)| + |(b.2 : ℚ) - (t.2 : ℚ)| -
            (59 / 100) * min (|(b.1 : ℚ) - (t.1 : ℚ)|) (|(b.2 : ℚ) - (t.2 : ℚ)|)) := by ring

theorem heurConsistent_square {cfg : Config} (hsq : cfg.gridType = .square)
    (t : Cell) : HeurConsistent cfg t := by
  intro a b hb
  rw [hsq] at hb ⊢
  simp only [getNeighbors, List.mem_cons, List.mem_singleton, List.not_mem_nil,
    or_false] at hb
  rcases hb with rfl | rfl | rfl | rfl | rfl | rfl | rfl | rfl <;>
    (apply heuristic_square_step <;> simp)

theorem heur_telescope {cfg : Config} {t : Cell} (hc : HeurConsistent cfg t) :
    ∀ (p : List Cell) (a b : Cell), List.Chain' (ValidStep cfg) p →
      p.head? = some a → p.getLast? = some b →
      heuristic cfg.gridType a t ≤ pathCost p + heuristic cfg.gridType b t := by
  intro p
  induction p with
  | nil => intro a b _ ha _; simp at ha
  | cons x rest ih =>
    intro a b hchain ha hb
    simp only [List.head?_cons, Option.some.injEq] at ha
    subst ha
    cases rest with
    | nil =>
      simp only [List.getLast?_singleton, Option.some.injEq] at hb
      subst hb
      simp [pathCost]
    | cons y r =>
      rw [List.chain'_cons] at hchain
      have hstep := hc x y hchain.1.1
      have hrec := ih y b hchain.2 (by simp) (by rw [← hb, List.getLast?_cons_cons])
      simp only [pathCost]
      linarith

theorem sortOpen_perm (st : AState) : (sortOpen st).Perm st.openSet :=
  List.perm_insertionSort _ _

theorem sortOpen_sorted (st : AState) :
    List.Sorted (fun a b => fval st a ≤ fval st b) (sortOpen st) :=
  List.sorted_insertionSort _ _

theorem sortOpen_head_min {st : AState} {current : Cell} {rest : List Cell}
    (hsort : sortOpen st = current :: rest) :
    ∀ y ∈ st.openSet, fval st current ≤ fval st y := by
  intro y hy
  have hperm := sortOpen_perm st
  rw [hsort] at hperm
  have hmem : y ∈ current :: rest := hperm.mem_iff.mpr hy
  rcases List.mem_cons.mp hmem with rfl | hmem'
  · exact le_refl _
  · have hs := sortOpen_sorted st
    rw [hsort] at hs
    exact (List.sorted_cons.mp hs).1 y hmem'

theorem chainTo_ne_nil {cf : Cell → Option Cell} {c : Cell} {l : List Cell}
    (h : ChainTo cf c l) : l ≠ [] := by
  cases h with
  | base _ _ => simp
  | step _ _ _ _ _ => simp

theorem reconstructPath_eq_of_chainTo {cf : Cell → Option Cell} {c : Cell}
    {l : List Cell} (h : ChainTo cf c l) :
    ∀ (fuel : ℕ) (acc : List Cell), l.length ≤ fuel + 1 →
      reconstructPath cf fuel c acc = l ++ acc := by
  induction h with
  | base c hc =>
    intro fuel acc _
    cases fuel with
    | zero => simp [reconstructPath]
    | succ m => simp [reconstructPath, hc]
  | step c p l' hcf hchain ih =>
    intro fuel acc hlen
    have hne : l' ≠ [] := chainTo_ne_nil hchain
    have hl1 : 1 ≤ l'.length := List.length_pos.mpr hne
    cases fuel with
    | zero =>
      simp only [List.length_append, List.length_singleton] at hlen
      omega
    | succ m =>
      simp only [reconstructPath, hcf]
      rw [ih m (c :: acc) (by simp at hlen ⊢; omega)]
      simp

theorem chainTo_exists {cfg : Config} {s t : Cell} {k : ℕ} {st : AState}
    (inv : BaseInv cfg s t k st) :
    ∀ (n : ℕ) (c : Cell) (v : ℚ), st.gScore c = some v → v ≤ n →
      ∃ l, ChainTo st.cameFrom c l ∧ l.head? = some s ∧ l.getLast? = some c ∧
        List.Chain' (ValidStep cfg) l ∧ pathCost l = v ∧ (l.length : ℚ) ≤ v + 1 := by
  intro n
  induction n with
  | zero =>
    intro c v hg hv
    have h0 : v = 0 := le_antisymm (by exact_mod_cast hv) (inv.g_nonneg c v hg)
    subst h0
    have hcs : c = s := inv.g_zero_start c hg
    subst hcs
    exact ⟨[c], .base c inv.cf_start, by simp, by simp, by simp, by simp [pathCost],
      by simp⟩
  | succ m ih =>
    intro c v hg hv
    cases hcf : st.cameFrom c with
    | none =>
      have hcs : c = s := inv.root c (by simp [hg]) hcf
      subst hcs
      have hv0 : v = 0 := by
        have h1 := inv.start_g
        rw [hg] at h1
        exact Option.some.inj h1
      subst hv0
      exact ⟨[c], .base c hcf, by simp, by simp, by simp, by simp [pathCost], by simp⟩
    | some p =>
      obtain ⟨vp, vc, hgp, hgc, hvc, hvs, hpc⟩ := inv.edge c p hcf
      have hvv : v = vc := by
        rw [hg] at hgc
        exact Option.some.inj hgc
      subst hvv
      have hcost := getMoveCost_ge_one p c
      have hvp_le : vp ≤ (m : ℚ) := by
        push_cast at hv
        linarith
      obtain ⟨l', hch, hh, hl, hcl, hpcost, hlen⟩ := ih p vp hgp hvp_le
      have hne : l' ≠ [] := chainTo_ne_nil hch
      refine ⟨l' ++ [c], .step c p l' hcf hch, ?_, ?_, ?_, ?_, ?_⟩
      · cases l' with
        | nil => exact absurd rfl hne
        | cons z zs => simpa using hh
      · simp
      · rw [List.chain'_append]
        refine ⟨hcl, by simp, ?_⟩
        intro x hx y hy
        rw [hl] at hx
        simp at hx hy
        subst hx
        subst hy
        exact hvs
      · rw [pathCost_concat c hl, hpcost, hvc]
      · have : ((l' ++ [c]).length : ℚ) = (l'.length : ℚ) + 1 := by
          simp
        rw [this]
        linarith

theorem expandNeighbor_closed {cfg : Config} {dest current n : Cell} {st : AState}
    (h : n ∈ st.closedSet) : expandNeighbor cfg dest current st n = st := by
  simp [expandNeighbor, h]

theorem expandNeighbor_oob {cfg : Config} {dest current n : Cell} {st : AState}
    (h1 : n ∉ st.closedSet) (h2 : isGridOffsetWithinBounds cfg n false = false) :
    expandNeighbor cfg dest current st n = { st with closedSet := n :: st.closedSet } := by
  simp [expandNeighbor, h1, h2]

theorem expandNeighbor_blocked {cfg : Config} {dest current n : Cell} {st : AState}
    (h1 : n ∉ st.closedSet) (h2 : isGridOffsetWithinBounds cfg n false = true)
    (h3 : edgeBlocked cfg current n = true) :
    expandNeighbor cfg dest current st n = st := by
  simp [expandNeighbor, h1, h2, h3]

theorem expandNeighbor_skip {cfg : Config} {dest current n : Cell} {st : AState}
    (h1 : n ∉ st.closedSet) (h2 : isGridOffsetWithinBounds cfg n false = true)
    (h3 : edgeBlocked cfg current n = false) (h4 : n ∈ st.openSet)
    (h5 : jsSkip (st.gScore n) ((st.gScore current).getD 0 + getMoveCost current n) = true) :
    expandNeighbor cfg dest current st n = st := by
  simp [expandNeighbor, h1, h2, h3, h4, h5]

theorem expandNeighbor_relax_mem {cfg : Config} {dest current n : Cell} {st : AState}
    (h1 : n ∉ st.closedSet) (h2 : isGridOffsetWithinBounds cfg n false = true)
    (h3 : edgeBlocked cfg current n = false) (h4 : n ∈ st.openSet)
    (h5 : jsSkip (st.gScore n) ((st.gScore current).getD 0 + getMoveCost current n) = false) :
    expandNeighbor cfg dest current st n =
      { st with
        cameFrom := fun c => if c = n then some current else st.cameFrom c,
        gScore := updF st.gScore n ((st.gScore current).getD 0 + getMoveCost current n),
        fScore := updF st.fScore n
          (((st.gScore current).getD 0 + getMoveCost current n) +
            heuristic cfg.gridType n dest) } := by
  simp [expandNeighbor, h1, h2, h3, h4, h5]

theorem expandNeighbor_relax_push {cfg : Config} {dest current n : Cell} {st : AState}
    (h1 : n ∉ st.closedSet) (h2 : isGridOffsetWithinBounds cfg n false = true)
    (h3 : edgeBlocked cfg current n = false) (h4 : n ∉ st.openSet) :
    expandNeighbor cfg dest current st n =
      { st with
        openSet := st.openSet ++ [n],
        cameFrom := fun c => if c = n then some current else st.cameFrom c,
        gScore := updF st.gScore n ((st.gScore current).getD 0 + getMoveCost current n),
        fScore := updF st.fScore n
          (((st.gScore current).getD 0 + getMoveCost current n) +
            heuristic cfg.gridType n dest) } := by
  simp [expandNeighbor, h1, h2, h3, h4]

theorem relax_mid_base {cfg : Config} {s t current n : Cell} {k : ℕ} {st : AState}
    {os' : List Cell}
    (mid : MidBase cfg s t current k st) (hn : n ∈ getNeighbors cfg.gridType current)
    (hcl : n ∉ st.closedSet) (hb : isGridOffsetWithinBounds cfg n false = true)
    (hblk : edgeBlocked cfg current n = false)
    (hcase : (n ∈ st.openSet ∧ os' = st.openSet) ∨
      (n ∉ st.openSet ∧ os' = st.openSet ++ [n])) :
    MidBase cfg s t current k
      { st with
        openSet := os',
        cameFrom := fun c => if c = n then some current else st.cameFrom c,
        gScore := updF st.gScore n ((st.gScore current).getD 0 + getMoveCost current n),
        fScore := updF st.fScore n
          (((st.gScore current).getD 0 + getMoveCost current n) +
            heuristic cfg.gridType n t) } := by
  obtain ⟨vcur, hgcur, hvcur⟩ := mid.cur_g
  have hns : n ≠ s := fun h => hcl (h ▸ mid.s_closed)
  have hncur : n ≠ current := fun h => hcl (h ▸ mid.cur_closed)
  have hgd : (st.gScore current).getD 0 = vcur := by rw [hgcur]; rfl
  have hvc0 : 0 ≤ vcur := mid.base.g_nonneg current vcur hgcur
  have hmc1 := getMoveCost_ge_one current n
  have hmc2 := getMoveCost_le current n
  have hosm : ∀ c, c ∈ os' ↔ (c ∈ st.openSet ∨ c = n) := by
    intro c
    rcases hcase with ⟨hmem, rfl⟩ | ⟨hmem, rfl⟩
    · constructor
      · exact Or.inl
      · rintro (h | rfl)
        · exact h
        · exact hmem
    · simp
  refine
    { base :=
      { start_g := ?_, g_zero_start := ?_, start_mem := ?_, open_nodup := ?_,
        open_closed := ?_, open_inB := ?_, open_gf := ?_, g_dom := ?_,
        g_inB := ?_, closed_oob := ?_, cf_start := ?_, root := ?_, edge := ?_,
        g_nonneg := ?_, gbound := ?_ },
      s_closed := mid.s_closed, cur_closed := mid.cur_closed, cur_g := ?_ }
  · simp only [updF, if_neg (Ne.symm hns)]
    exact mid.base.start_g
  · intro c hc
    simp only [updF] at hc
    split at hc
    · exfalso
      have := Option.some.inj hc
      rw [hgd] at this
      linarith
    · exact mid.base.g_zero_start c hc
  · exact Or.inl mid.s_closed
  · rcases hcase with ⟨_, rfl⟩ | ⟨hmem, rfl⟩
    · exact mid.base.open_nodup
    · simp [List.nodup_append, mid.base.open_nodup, hmem]
  · intro c hc
    rcases (hosm c).mp hc with h | rfl
    · exact mid.base.open_closed c h
    · exact hcl
  · intro c hc
    rcases (hosm c).mp hc with h | rfl
    · exact mid.base.open_inB c h
    · exact Or.inl hb
  · intro c hc
    rcases eq_or_ne c n with rfl | hcn
    · refine ⟨(st.gScore current).getD 0 + getMoveCost current c, ?_, ?_⟩
      · simp [updF]
      · simp [updF]
    · obtain ⟨v, hg, hf⟩ := mid.base.open_gf c (((hosm c).mp hc).resolve_right hcn)
      refine ⟨v, ?_, ?_⟩
      · simp only [updF, if_neg hcn]
        exact hg
      · simp only [updF, if_neg hcn]
        exact hf
  · intro c v hg
    simp only [updF] at hg
    split at hg
    · rename_i hceq
      exact Or.inl ((hosm c).mpr (Or.inr hceq))
    · rcases mid.base.g_dom c v hg with h | h
      · exact Or.inl ((hosm c).mpr (Or.inl h))
      · exact Or.inr h
  · intro c v hg
    simp only [updF] at hg
    split at hg
    · rename_i hceq
      subst hceq
      exact Or.inr hb
    · exact mid.base.g_inB c v hg
  · intro c hc
    have hcn : c ≠ n := fun h => hcl (h ▸ hc)
    have h1 := mid.base.closed_oob c hc
    simpa [updF, hcn] using h1
  · simp only [if_neg (Ne.symm hns)]
    exact mid.base.cf_start
  · intro c hg hcf
    by_cases hcn : c = n
    · subst hcn
      simp at hcf
    · simp only [if_neg hcn] at hcf
      simp only [updF, if_neg hcn] at hg
      exact mid.base.root c hg hcf
  · intro c p hcf
    rcases eq_or_ne c n with rfl | hcn
    · have hp : current = p := by simpa using hcf
      subst hp
      refine ⟨vcur, vcur + getMoveCost current c, ?_, ?_, rfl, ?_, ?_⟩
      · simp only [updF, if_neg (Ne.symm hncur)]
        exact hgcur
      · simp [updF, hgd]
      · exact ⟨hn, hb, hblk⟩
      · exact mid.cur_closed
    · simp only [if_neg hcn] at hcf
      obtain ⟨vp, vc, hgp, hgc, hvc, hvs, hpc⟩ := mid.base.edge c p hcf
      have hpn : p ≠ n := fun h => hcl (h ▸ hpc)
      refine ⟨vp, vc, ?_, ?_, hvc, hvs, hpc⟩
      · simp only [updF, if_neg hpn]
        exact hgp
      · simp only [updF, if_neg hcn]
        exact hgc
  · intro c v hg
    simp only [updF] at hg
    split at hg
    · have := Option.some.inj hg
      rw [hgd] at this
      linarith
    · exact mid.base.g_nonneg c v hg
  · intro c v hg
    simp only [updF] at hg
    split at hg
    · have := Option.some.inj hg
      rw [hgd] at this
      subst this
      push_cast
      linarith
    · have := mid.base.gbound c v hg
      exact this
  · refine ⟨vcur, ?_, hvcur⟩
    simp only [updF, if_neg (Ne.symm hncur)]
    exact hgcur

theorem oob_mid_base {cfg : Config} {s t current n : Cell} {k : ℕ} {st : AState}
    (mid : MidBase cfg s t current k st)
    (hcl : n ∉ st.closedSet) (hb : isGridOffsetWithinBounds cfg n false = false) :
    MidBase cfg s t current k { st with closedSet := n :: st.closedSet } := by
  have hns : n ≠ s := fun h => hcl (h ▸ mid.s_closed)
  have hnop : n ∉ st.openSet := by
    intro h
    rcases mid.base.open_inB n h with h1 | h1
    · rw [hb] at h1
      exact Bool.false_ne_true h1
    · exact hns h1
  refine
    { base :=
      { start_g := mid.base.start_g, g_zero_start := mid.base.g_zero_start,
        start_mem := Or.inl (List.mem_cons_of_mem _ mid.s_closed),
        open_nodup := mid.base.open_nodup,
        open_closed := ?_, open_inB := mid.base.open_inB,
        open_gf := mid.base.open_gf, g_dom := ?_, g_inB := mid.base.g_inB,
        closed_oob := ?_, cf_start := mid.base.cf_start, root := mid.base.root,
        edge := ?_, g_nonneg := mid.base.g_nonneg, gbound := mid.base.gbound },
      s_closed := List.mem_cons_of_mem _ mid.s_closed,
      cur_closed := List.mem_cons_of_mem _ mid.cur_closed,
      cur_g := mid.cur_g }
  · intro c hc
    have h1 := mid.base.open_closed c hc
    have h2 : c ≠ n := fun h => hnop (h ▸ hc)
    simp [h2, h1]
  · intro c v hg
    rcases mid.base.g_dom c v hg with h | h
    · exact Or.inl h
    · exact Or.inr (List.mem_cons_of_mem _ h)
  · intro c hc
    rcases List.mem_cons.mp hc with rfl | h
    · exact Or.inr hb
    · exact mid.base.closed_oob c h
  · intro c p hcf
    obtain ⟨vp, vc, hgp, hgc, hvc, hvs, hpc⟩ := mid.base.edge c p hcf
    exact ⟨vp, vc, hgp, hgc, hvc, hvs, List.mem_cons_of_mem _ hpc⟩

theorem expand_base_step {cfg : Config} {s t current n : Cell} {k : ℕ} {st : AState}
    (mid : MidBase cfg s t current k st) (hn : n ∈ getNeighbors cfg.gridType current) :
    MidBase cfg s t current k (expandNeighbor cfg t current st n) := by
  by_cases hcl : n ∈ st.closedSet
  · rw [expandNeighbor_closed hcl]
    exact mid
  · by_cases hb : isGridOffsetWithinBounds cfg n false = true
    · by_cases hblk : edgeBlocked cfg current n = true
      · rw [expandNeighbor_blocked hcl hb hblk]
        exact mid
      · have hblk' : edgeBlocked cfg current n = false := by
          simpa using hblk
        by_cases hop : n ∈ st.openSet
        · by_cases hskip : jsSkip (st.gScore n)
            ((st.gScore current).getD 0 + getMoveCost current n) = true
          · rw [expandNeighbor_skip hcl hb hblk' hop hskip]
            exact mid
          · have hskip' : jsSkip (st.gScore n)
                ((st.gScore current).getD 0 + getMoveCost current n) = false := by
              simpa using hskip
            rw [expandNeighbor_relax_mem hcl hb hblk' hop hskip']
            exact relax_mid_base mid hn hcl hb hblk' (Or.inl ⟨hop, rfl⟩)
        · rw [expandNeighbor_relax_push hcl hb hblk' hop]
          exact relax_mid_base mid hn hcl hb hblk' (Or.inr ⟨hop, rfl⟩)
    · have hb' : isGridOffsetWithinBounds cfg n false = false := by
        simpa using hb
      rw [expandNeighbor_oob hcl hb']
      exact oob_mid_base mid hcl hb'

theorem jsSkip_true {gn : Option ℚ} {tent : ℚ} (h : jsSkip gn tent = true) :
    ∃ v, gn = some v ∧ ¬ v = 0 ∧ v ≤ tent := by
  cases gn with
  | none => simp [jsSkip] at h
  | some v =>
    by_cases h0 : v = 0
    · simp [jsSkip, h0] at h
    · refine ⟨v, rfl, h0, ?_⟩
      simpa [jsSkip, h0] using h

theorem jsSkip_false {gn : Option ℚ} {tent : ℚ} (h : jsSkip gn tent = false) :
    gn = none ∨ ∃ v, gn = some v ∧ (v = 0 ∨ tent < v) := by
  cases gn with
  | none => exact Or.inl rfl
  | some v =>
    refine Or.inr ⟨v, rfl, ?_⟩
    by_cases h0 : v = 0
    · exact Or.inl h0
    · simp [jsSkip, h0] at h
      exact Or.inr h

theorem relax_mid_opt {cfg : Config} {s t current n : Cell} {k : ℕ} {st : AState}
    {os' : List Cell} {done : List Cell}
    (mid : MidOpt cfg s t current k st done)
    (hn : n ∈ getNeighbors cfg.gridType current)
    (hcl : n ∉ st.closedSet) (hb : isGridOffsetWithinBounds cfg n false = true)
    (hblk : edgeBlocked cfg current n = false)
    (hcase : (n ∈ st.openSet ∧ os' = st.openSet ∧
        ∀ v, st.gScore n = some v →
          (st.gScore current).getD 0 + getMoveCost current n < v ∨ v = 0) ∨
      (n ∉ st.openSet ∧ os' = st.openSet ++ [n])) :
    MidOpt cfg s t current k
      { st with
        openSet := os',
        cameFrom := fun c => if c = n then some current else st.cameFrom c,
        gScore := updF st.gScore n ((st.gScore current).getD 0 + getMoveCost current n),
        fScore := updF st.fScore n
          (((st.gScore current).getD 0 + getMoveCost current n) +
            heuristic cfg.gridType n t) } (done ++ [n]) := by
  have hbase := relax_mid_base mid.toMidBase hn hcl hb hblk
    (by rcases hcase with ⟨h1, h2, _⟩ | ⟨h1, h2⟩
        · exact Or.inl ⟨h1, h2⟩
        · exact Or.inr ⟨h1, h2⟩)
  obtain ⟨vcur, hgcur, hvcur⟩ := mid.cur_g
  have hgd : (st.gScore current).getD 0 = vcur := by rw [hgcur]; rfl
  have hns : n ≠ s := fun h => hcl (h ▸ mid.s_closed)
  have hncur : n ≠ current := fun h => hcl (h ▸ mid.cur_closed)
  refine { toMidBase := hbase, closed_opt := ?_, closed_exp_part := ?_ }
  · intro c hc v hg q hq
    have hcn : c ≠ n := fun h => hcl (h ▸ hc)
    simp only [updF, if_neg hcn] at hg
    exact mid.closed_opt c hc v hg q hq
  · intro c hc hgsome y hvs hdone
    have hcn : c ≠ n := fun h => hcl (h ▸ hc)
    have hgc' : ∀ w, st.gScore c = some w →
        (updF st.gScore n ((st.gScore current).getD 0 + getMoveCost current n) c) = some w := by
      intro w hw
      simp only [updF, if_neg hcn]
      exact hw
    have hgsome0 : (st.gScore c).isSome := by
      simpa [updF, hcn] using hgsome
    rcases eq_or_ne y n with rfl | hyn
    · rcases eq_or_ne c current with rfl | hccur
      · refine Or.inr ⟨?_, vcur + getMoveCost c y, vcur, by simp [updF, hgd],
          hgc' vcur hgcur, le_refl _⟩
        rcases hcase with ⟨h1, h2, _⟩ | ⟨_, h2⟩
        · rw [h2]; exact h1
        · rw [h2]; simp
      · have hold := mid.closed_exp_part c hc hgsome0 y hvs (fun h => absurd h hccur)
        rcases hold with h | ⟨hyop, vy, vc, hgy, hgcv, hle⟩
        · exact absurd h hcl
        · rcases hcase with ⟨h1, h2, h3⟩ | ⟨h1, h2⟩
          · refine Or.inr ⟨by rw [h2]; exact hyop, vcur + getMoveCost current y,
              vc, by simp [updF, hgd], hgc' vc hgcv, ?_⟩
            rcases h3 vy hgy with hlt | h0
            · rw [hgd] at hlt
              linarith
            · subst h0
              exfalso
              exact hns (mid.base.g_zero_start y hgy)
          · exact absurd hyop h1
    · have hdone' : c = current → y ∈ done := by
        intro h
        rcases List.mem_append.mp (hdone h) with h1 | h1
        · exact h1
        · simp at h1
          exact absurd h1 hyn
      have hold := mid.closed_exp_part c hc hgsome0 y hvs hdone'
      rcases hold with h | ⟨hyop, vy, vc, hgy, hgcv, hle⟩
      · exact Or.inl h
      · refine Or.inr ⟨?_, vy, vc, ?_, hgc' vc hgcv, hle⟩
        · rcases hcase with ⟨_, h2, _⟩ | ⟨_, h2⟩
          · rw [h2]; exact hyop
          · rw [h2]; exact List.mem_append_left _ hyop
        · simp only [updF, if_neg hyn]
          exact hgy

theorem expand_opt_step {cfg : Config} {s t current n : Cell} {k : ℕ} {st : AState}
    {done : List Cell}
    (mid : MidOpt cfg s t current k st done)
    (hn : n ∈ getNeighbors cfg.gridType current) :
    MidOpt cfg s t current k (expandNeighbor cfg t current st n) (done ++ [n]) := by
  have hexp : ∀ st' : AState, st' = st →
      st'.closedSet = st.closedSet → st'.openSet = st.openSet →
      True := fun _ _ _ _ => trivial
  by_cases hcl : n ∈ st.closedSet
  · rw [expandNeighbor_closed hcl]
    refine ⟨mid.toMidBase, mid.closed_opt, ?_⟩
    intro c hc hgs y hvs hdone
    rcases eq_or_ne y n with rfl | hyn
    · exact Or.inl hcl
    · refine mid.closed_exp_part c hc hgs y hvs ?_
      intro h
      rcases List.mem_append.mp (hdone h) with h1 | h1
      · exact h1
      · simp at h1
        exact absurd h1 hyn
  · by_cases hb : isGridOffsetWithinBounds cfg n false = true
    · by_cases hblk : edgeBlocked cfg current n = true
      · rw [expandNeighbor_blocked hcl hb hblk]
        refine ⟨mid.toMidBase, mid.closed_opt, ?_⟩
        intro c hc hgs y hvs hdone
        rcases eq_or_ne y n with rfl | hyn
        · rcases eq_or_ne c current with rfl | hccur
          · exfalso
            have := hvs.2.2
            rw [hblk] at this
            simp at this
          · exact mid.closed_exp_part c hc hgs y hvs (fun h => absurd h hccur)
        · refine mid.closed_exp_part c hc hgs y hvs ?_
          intro h
          rcases List.mem_append.mp (hdone h) with h1 | h1
          · exact h1
          · simp at h1
            exact absurd h1 hyn
      · have hblk' : edgeBlocked cfg current n = false := by simpa using hblk
        by_cases hop : n ∈ st.openSet
        · by_cases hskip : jsSkip (st.gScore n)
            ((st.gScore current).getD 0 + getMoveCost current n) = true
          · rw [expandNeighbor_skip hcl hb hblk' hop hskip]
            obtain ⟨v, hgn, hv0, hvle⟩ := jsSkip_true hskip
            obtain ⟨vcur, hgcur, _⟩ := mid.cur_g
            have hgd : (st.gScore current).getD 0 = vcur := by rw [hgcur]; rfl
            refine ⟨mid.toMidBase, mid.closed_opt, ?_⟩
            intro c hc hgs y hvs hdone
            rcases eq_or_ne y n with rfl | hyn
            · rcases eq_or_ne c current with rfl | hccur
              · refine Or.inr ⟨hop, v, vcur, hgn, hgcur, ?_⟩
                rw [hgd] at hvle
                exact hvle
              · exact mid.closed_exp_part c hc hgs y hvs (fun h => absurd h hccur)
            · refine mid.closed_exp_part c hc hgs y hvs ?_
              intro h
              rcases List.mem_append.mp (hdone h) with h1 | h1
              · exact h1
              · simp at h1
                exact absurd h1 hyn
          · have hskip' : jsSkip (st.gScore n)
                ((st.gScore current).getD 0 + getMoveCost current n) = false := by
              simpa using hskip
            rw [expandNeighbor_relax_mem hcl hb hblk' hop hskip']
            refine relax_mid_opt mid hn hcl hb hblk' (Or.inl ⟨hop, rfl, ?_⟩)
            intro v hgn
            rcases jsSkip_false hskip' with h | ⟨w, hw, hw2⟩
            · rw [hgn] at h
              exact absurd h (by simp)
            · rw [hgn] at hw
              have hvw : v = w := Option.some.inj hw
              subst hvw
              rcases hw2 with h0 | hlt
              · exact Or.inr h0
              · exact Or.inl hlt
        · rw [expandNeighbor_relax_push hcl hb hblk' hop]
          exact relax_mid_opt mid hn hcl hb hblk' (Or.inr ⟨hop, rfl⟩)
    · have hb' : isGridOffsetWithinBounds cfg n false = false := by
        simpa using hb
      rw [expandNeighbor_oob hcl hb']
      have hns : n ≠ s := fun h => hcl (h ▸ mid.s_closed)
      have hgnone : st.gScore n = none := by
        cases hgn : st.gScore n with
        | none => rfl
        | some v =>
          rcases mid.base.g_inB n v hgn with h | h
          · exact absurd h hns
          · rw [hb'] at h
            exact absurd h Bool.false_ne_true
      refine ⟨oob_mid_base mid.toMidBase hcl hb', ?_, ?_⟩
      · intro c hc v hg q hq
        rcases List.mem_cons.mp hc with rfl | h
        · rw [hgnone] at hg
          exact absurd hg (by simp)
        · exact mid.closed_opt c h v hg q hq
      · intro c hc hgs y hvs hdone
        rcases List.mem_cons.mp hc with rfl | h
        · rw [hgnone] at hgs
          simp at hgs
        · rcases eq_or_ne y n with rfl | hyn
          · exact Or.inl (List.mem_cons_self _ _)
          · have hccur : c = current → y ∈ done := by
              intro hcc
              rcases List.mem_append.mp (hdone hcc) with h1 | h1
              · exact h1
              · simp at h1
                exact absurd h1 hyn
            rcases mid.closed_exp_part c h hgs y hvs hccur with h1 | h1
            · exact Or.inl (List.mem_cons_of_mem _ h1)
            · exact Or.inr h1

theorem foldl_expand_base {cfg : Config} {s t current : Cell} {k : ℕ} :
    ∀ (l : List Cell) (st : AState),
      (∀ n ∈ l, n ∈ getNeighbors cfg.gridType current) →
      MidBase cfg s t current k st →
      MidBase cfg s t current k (l.foldl (expandNeighbor cfg t current) st) := by
  intro l
  induction l with
  | nil => exact fun st _ mid => mid
  | cons n l' ih =>
    intro st hsub mid
    simp only [List.foldl_cons]
    exact ih _ (fun m hm => hsub m (List.mem_cons_of_mem _ hm))
      (expand_base_step mid (hsub n (List.mem_cons_self _ _)))

theorem foldl_expand_opt {cfg : Config} {s t current : Cell} {k : ℕ} :
    ∀ (l done : List Cell) (st : AState),
      (∀ n ∈ l, n ∈ getNeighbors cfg.gridType current) →
      MidOpt cfg s t current k st done →
      MidOpt cfg s t current k (l.foldl (expandNeighbor cfg t current) st)
        (done ++ l) := by
  intro l
  induction l with
  | nil =>
    intro done st _ mid
    simpa using mid
  | cons n l' ih =>
    intro done st hsub mid
    simp only [List.foldl_cons]
    have h1 := ih (done ++ [n]) _ (fun m hm => hsub m (List.mem_cons_of_mem _ hm))
      (expand_opt_step mid (hsub n (List.mem_cons_self _ _)))
    have heq : done ++ [n] ++ l' = done ++ n :: l' := by simp
    rw [heq] at h1
    exact h1

theorem head?_append_cons {α : Type} (l1 : List α) (a : α) (l2 l2' : List α) :
    (l1 ++ a :: l2).head? = (l1 ++ a :: l2').head? := by
  cases l1 <;> simp

theorem cross_telescope {cfg : Config} {s t : Cell} {k : ℕ} {st : AState}
    (hc : HeurConsistent cfg t) (inv : OptInv cfg s t k st) :
    ∀ (suf pref : List Cell) (c0 m : Cell),
      c0 ∈ st.closedSet → (st.gScore c0).isSome →
      List.Chain' (ValidStep cfg) (pref ++ c0 :: suf) →
      (pref ++ c0 :: suf).head? = some s →
      (c0 :: suf).getLast? = some m → m ∉ st.closedSet →
      ∃ x vx, x ∈ st.openSet ∧ st.gScore x = some vx ∧
        vx + heuristic cfg.gridType x t ≤
          pathCost (pref ++ c0 :: suf) + heuristic cfg.gridType m t := by
  intro suf
  induction suf with
  | nil =>
    intro pref c0 m hc0 _ _ _ hlast hm
    simp at hlast
    subst hlast
    exact absurd hc0 hm
  | cons y suf' ih =>
    intro pref c0 m hc0 hg0 hchain hhead hlast hm
    have hsplit := List.chain'_append.mp hchain
    have hchain2 : List.Chain' (ValidStep cfg) (c0 :: y :: suf') := hsplit.2.1
    have hvs : ValidStep cfg c0 y := (List.chain'_cons.mp hchain2).1
    have hlast' : (y :: suf').getLast? = some m := by
      rw [List.getLast?_cons_cons] at hlast
      exact hlast
    rcases inv.closed_exp c0 hc0 hg0 y hvs with hyc | ⟨hyo, vy, vc0, hgy, hgc0, hle⟩
    · have hgys : (st.gScore y).isSome := by
        rcases inv.closed_oob y hyc with h | h
        · exact h
        · rw [hvs.2.1] at h
          simp at h
      have hlisteq : (pref ++ [c0]) ++ y :: suf' = pref ++ c0 :: y :: suf' := by
        simp
      have hre := ih (pref ++ [c0]) y m hyc hgys
        (by rw [hlisteq]; exact hchain)
        (by rw [hlisteq]; exact hhead) hlast' hm
      obtain ⟨x, vx, hxo, hgx, hineq⟩ := hre
      refine ⟨x, vx, hxo, hgx, ?_⟩
      rw [hlisteq] at hineq
      exact hineq
    · refine ⟨y, vy, hyo, hgy, ?_⟩
      have hpath : IsPath cfg s c0 (pref ++ [c0]) := by
        refine ⟨?_, by simp, ?_⟩
        · rw [head?_append_cons pref c0 [] (y :: suf')]
          exact hhead
        · rw [List.chain'_append]
          refine ⟨hsplit.1, by simp, ?_⟩
          intro a ha b hb
          simp at hb
          subst hb
          exact hsplit.2.2 a ha c0 (by simp)
      have hopt := inv.closed_opt c0 hc0 vc0 hgc0 _ hpath
      have htel := heur_telescope hc (y :: suf') y m
        (List.chain'_cons.mp hchain2).2 (by simp) hlast'
      have hcost : pathCost (pref ++ c0 :: y :: suf') =
          pathCost (pref ++ [c0]) + getMoveCost c0 y + pathCost (y :: suf') := by
        rw [pathCost_append pref c0 (y :: suf')]
        simp only [pathCost]
        ring
      rw [hcost]
      linarith

theorem popped_head_opt {cfg : Config} {s t : Cell} {k : ℕ} {st : AState}
    {current : Cell} {rest : List Cell}
    (hc : HeurConsistent cfg t) (inv : OptInv cfg s t k st)
    (hsort : sortOpen st = current :: rest) :
    ∀ q, IsPath cfg s current q → ∀ v, st.gScore current = some v →
      v ≤ pathCost q := by
  intro q hq v hgv
  have hcuro : current ∈ st.openSet := by
    have hperm := sortOpen_perm st
    rw [hsort] at hperm
    exact hperm.mem_iff.mp (List.mem_cons_self _ _)
  have hcurnc : current ∉ st.closedSet := inv.open_closed current hcuro
  rcases inv.start_mem with hscl | hop
  · obtain ⟨q1, rfl⟩ : ∃ q1, q = s :: q1 := by
      cases q with
      | nil => simp [IsPath] at hq
      | cons a q1 =>
        have h1 := hq.1
        simp at h1
        subst h1
        exact ⟨q1, rfl⟩
    have hcross := cross_telescope hc inv q1 [] s current hscl
      (by simp [inv.start_g]) (by simpa using hq.2.2) (by simp) (hq.2.1) hcurnc
    obtain ⟨x, vx, hxo, hgx, hineq⟩ := hcross
    obtain ⟨vx', hgx', hfx⟩ := inv.open_gf x hxo
    have hvxx : vx = vx' := by
      rw [hgx] at hgx'
      exact Option.some.inj hgx'
    subst hvxx
    obtain ⟨vc, hgc, hfc⟩ := inv.open_gf current hcuro
    have hvcc : v = vc := by
      rw [hgv] at hgc
      exact Option.some.inj hgc
    subst hvcc
    have hmin := sortOpen_head_min hsort x hxo
    have hfvc : fval st current = v + heuristic cfg.gridType current t := by
      unfold fval
      rw [hfc]
      rfl
    have hfvx : fval st x = vx + heuristic cfg.gridType x t := by
      unfold fval
      rw [hfx]
      rfl
    rw [hfvc, hfvx] at hmin
    simp only [List.nil_append] at hineq
    linarith
  · have hlen : (sortOpen st).length = 1 := by
      rw [(sortOpen_perm st).length_eq, hop]
      rfl
    obtain ⟨a, ha⟩ := List.length_eq_one.mp hlen
    have hsmem : s ∈ sortOpen st := (sortOpen_perm st).mem_iff.mpr (by simp [hop])
    rw [ha] at hsmem
    simp at hsmem
    subst hsmem
    rw [hsort] at ha
    injection ha with hca hrest
    subst hca
    have hv0 : v = 0 := by
      have h1 := inv.start_g
      rw [hgv] at h1
      exact Option.some.inj h1
    subst hv0
    exact pathCost_nonneg q

theorem pop_establish_base {cfg : Config} {s t : Cell} {k : ℕ} {st : AState}
    {current : Cell} {rest : List Cell}
    (inv : BaseInv cfg s t k st) (hsort : sortOpen st = current :: rest) :
    MidBase cfg s t current k
      { st with openSet := rest, closedSet := current :: st.closedSet } := by
  have hperm : (current :: rest).Perm st.openSet := by
    rw [← hsort]
    exact sortOpen_perm st
  have hnd : (current :: rest).Nodup := hperm.nodup_iff.mpr inv.open_nodup
  have hcuro : current ∈ st.openSet := hperm.mem_iff.mp (List.mem_cons_self _ _)
  have hrsub : ∀ c ∈ rest, c ∈ st.openSet :=
    fun c hcr => hperm.mem_iff.mp (List.mem_cons_of_mem _ hcr)
  have hcurnr : current ∉ rest := (List.nodup_cons.mp hnd).1
  have hopen_iff : ∀ c, c ∈ st.openSet ↔ (c = current ∨ c ∈ rest) := by
    intro c
    rw [← hperm.mem_iff]
    simp
  have hscl : s ∈ current :: st.closedSet := by
    rcases inv.start_mem with h | h
    · exact List.mem_cons_of_mem _ h
    · have : current = s := by
        have hmem : current ∈ st.openSet := hcuro
        rw [h] at hmem
        simpa using hmem
      rw [this]
      exact List.mem_cons_self _ _
  obtain ⟨vcur, hgcur, hfcur⟩ := inv.open_gf current hcuro
  refine
    { base :=
      { start_g := inv.start_g, g_zero_start := inv.g_zero_start,
        start_mem := Or.inl hscl,
        open_nodup := (List.nodup_cons.mp hnd).2,
        open_closed := ?_, open_inB := fun c hcr => inv.open_inB c (hrsub c hcr),
        open_gf := fun c hcr => inv.open_gf c (hrsub c hcr),
        g_dom := ?_, g_inB := inv.g_inB, closed_oob := ?_,
        cf_start := inv.cf_start, root := inv.root, edge := ?_,
        g_nonneg := inv.g_nonneg, gbound := ?_ },
      s_closed := hscl, cur_closed := List.mem_cons_self _ _,
      cur_g := ⟨vcur, hgcur, inv.gbound current vcur hgcur⟩ }
  · intro c hcr
    have h1 := inv.open_closed c (hrsub c hcr)
    have h2 : c ≠ current := fun h => hcurnr (h ▸ hcr)
    simp [h2, h1]
  · intro c v hg
    rcases inv.g_dom c v hg with h | h
    · rcases (hopen_iff c).mp h with rfl | h2
      · exact Or.inr (List.mem_cons_self _ _)
      · exact Or.inl h2
    · exact Or.inr (List.mem_cons_of_mem _ h)
  · intro c hcc
    rcases List.mem_cons.mp hcc with rfl | h
    · exact Or.inl (by simp [hgcur])
    · exact inv.closed_oob c h
  · intro c p hcf
    obtain ⟨vp, vc, hgp, hgc, hvc, hvs, hpc⟩ := inv.edge c p hcf
    exact ⟨vp, vc, hgp, hgc, hvc, hvs, List.mem_cons_of_mem _ hpc⟩
  · intro c v hg
    have h1 := inv.gbound c v hg
    have h2 : (141 : ℚ) / 100 * k ≤ (141 : ℚ) / 100 * (k + 1) := by
      have : (k : ℚ) ≤ (k : ℚ) + 1 := by linarith
      nlinarith
    push_cast at h2 ⊢
    linarith

theorem pop_establish_opt {cfg : Config} {s t : Cell} {k : ℕ} {st : AState}
    {current : Cell} {rest : List Cell}
    (hc : HeurConsistent cfg t) (inv : OptInv cfg s t k st)
    (hsort : sortOpen st = current :: rest) :
    MidOpt cfg s t current k
      { st with openSet := rest, closedSet := current :: st.closedSet } [] := by
  have hperm : (current :: rest).Perm st.openSet := by
    rw [← hsort]
    exact sortOpen_perm st
  have hcuro : current ∈ st.openSet := hperm.mem_iff.mp (List.mem_cons_self _ _)
  have hcurnc : current ∉ st.closedSet := inv.open_closed current hcuro
  refine ⟨pop_establish_base inv.toBaseInv hsort, ?_, ?_⟩
  · intro c hcc v hg q hq
    rcases List.mem_cons.mp hcc with rfl | h
    · exact popped_head_opt hc inv hsort q hq v hg
    · exact inv.closed_opt c h v hg q hq
  · intro c hcc hgs y hvs hdone
    rcases List.mem_cons.mp hcc with rfl | h
    · exact absurd (hdone rfl) (List.not_mem_nil y)
    · rcases inv.closed_exp c h hgs y hvs with h1 | ⟨hyo, vy, vc, hgy, hgc, hle⟩
      · exact Or.inl (List.mem_cons_of_mem _ h1)
      · have hyiff : y ∈ current :: rest := hperm.mem_iff.mpr hyo
        rcases List.mem_cons.mp hyiff with rfl | h2
        · exact Or.inl (List.mem_cons_self _ _)
        · exact Or.inr ⟨h2, vy, vc, hgy, hgc, hle⟩

theorem baseInv_init (cfg : Config) (s t : Cell) :
    BaseInv cfg s t 0 (initState cfg s t) := by
  refine
    { start_g := by simp [initState, updF],
      g_zero_start := ?_,
      start_mem := Or.inr rfl,
      open_nodup := by simp [initState],
      open_closed := by simp [initState],
      open_inB := ?_,
      open_gf := ?_,
      g_dom := ?_,
      g_inB := ?_,
      closed_oob := by simp [initState],
      cf_start := rfl,
      root := ?_,
      edge := by simp [initState],
      g_nonneg := ?_,
      gbound := ?_ }
  · intro c hc
    simp only [initState, updF] at hc
    split at hc
    · assumption
    · simp at hc
  · intro c hc
    simp only [initState] at hc
    simp at hc
    exact Or.inr hc
  · intro c hc
    simp only [initState] at hc ⊢
    simp at hc
    subst hc
    exact ⟨0, by simp [updF], by simp [updF]⟩
  · intro c v hg
    simp only [initState, updF] at hg ⊢
    split at hg
    · left
      simp
      assumption
    · simp at hg
  · intro c v hg
    simp only [initState, updF] at hg
    split at hg
    · exact Or.inl (by assumption)
    · simp at hg
  · intro c hg hcf
    simp only [initState, updF] at hg
    split at hg
    · assumption
    · simp at hg
  · intro c v hg
    simp only [initState, updF] at hg
    split at hg
    · rw [← Option.some.inj hg]
    · simp at hg
  · intro c v hg
    simp only [initState, updF] at hg
    split at hg
    · rw [← Option.some.inj hg]
      simp
    · simp at hg

theorem optInv_init (cfg : Config) (s t : Cell) :
    OptInv cfg s t 0 (initState cfg s t) := by
  refine ⟨baseInv_init cfg s t, ?_, ?_⟩
  · intro c hc
    simp [initState] at hc
  · intro c hc
    simp [initState] at hc

theorem mid_to_opt {cfg : Config} {s t current : Cell} {k : ℕ} {st : AState}
    (mid : MidOpt cfg s t current k st (getNeighbors cfg.gridType current)) :
    OptInv cfg s t (k + 1) st := by
  refine ⟨mid.base, mid.closed_opt, ?_⟩
  intro c hc hg y hvs
  exact mid.closed_exp_part c hc hg y hvs (fun hcc => hcc ▸ hvs.1)

theorem aStarLoop_iter_le (cfg : Config) (dest : Cell) :
    ∀ (fuel : ℕ) (st : AState), (aStarLoop cfg dest fuel st).2 ≤ fuel := by
  intro fuel
  induction fuel with
  | zero => intro st; simp [aStarLoop]
  | succ m ih =>
    intro st
    cases hsort : sortOpen st with
    | nil => simp [aStarLoop, hsort]
    | cons current rest =>
      by_cases hct : current = dest
      · subst hct
        simp [aStarLoop, hsort]
      · simp only [aStarLoop, hsort, if_neg hct]
        have h1 := ih ((getNeighbors cfg.gridType current).foldl
          (expandNeighbor cfg dest current)
          { st with openSet := rest, closedSet := current :: st.closedSet })
        omega

theorem aStarLoop_sound {cfg : Config} {s t : Cell} :
    ∀ (fuel k : ℕ) (st : AState), k + fuel ≤ MAX_PATHFINDING_ITERATIONS →
      BaseInv cfg s t k st →
      ∀ p, (aStarLoop cfg t fuel st).1 = some p →
        p.head? = some s ∧ p.getLast? = some t ∧ List.Chain' (ValidStep cfg) p := by
  intro fuel
  induction fuel with
  | zero =>
    intro k st _ _ p hp
    simp [aStarLoop] at hp
  | succ m ih =>
    intro k st hk inv p hp
    cases hsort : sortOpen st with
    | nil => simp [aStarLoop, hsort] at hp
    | cons current rest =>
      by_cases hct : current = t
      · subst hct
        simp only [aStarLoop, hsort, if_pos rfl, Option.some.injEq] at hp
        have hperm : (current :: rest).Perm st.openSet := by
          rw [← hsort]
          exact sortOpen_perm st
        have hcuro : current ∈ st.openSet := hperm.mem_iff.mp (List.mem_cons_self _ _)
        obtain ⟨vt, hgt, _⟩ := inv.open_gf current hcuro
        have hb1 : vt ≤ (141 : ℚ) / 100 * k := inv.gbound current vt hgt
        have hk5 : (k : ℚ) ≤ 5000 := by
          have : k ≤ 5000 := by
            have := hk
            unfold MAX_PATHFINDING_ITERATIONS at this
            omega
          exact_mod_cast this
        have hvt : vt ≤ (7050 : ℚ) := by nlinarith
        obtain ⟨l, hchTo, hh, hl, hcl, hpc, hlen⟩ :=
          chainTo_exists inv 7050 current vt hgt (by push_cast; linarith)
        have hlenN : l.length ≤ RECON_FUEL + 1 := by
          have h1 : (l.length : ℚ) ≤ 7051 := by linarith
          have h2 : l.length ≤ 7051 := by exact_mod_cast h1
          unfold RECON_FUEL MAX_PATHFINDING_ITERATIONS
          omega
        have hrec := reconstructPath_eq_of_chainTo hchTo RECON_FUEL []
          (by omega)
        rw [hrec] at hp
        simp at hp
        subst hp
        exact ⟨hh, hl, hcl⟩
      · simp only [aStarLoop, hsort, if_neg hct] at hp
        have mid := pop_establish_base inv hsort
        have mid2 := foldl_expand_base (getNeighbors cfg.gridType current) _
          (fun n hn => hn) mid
        have hk' : (k + 1) + m ≤ MAX_PATHFINDING_ITERATIONS := by omega
        exact ih (k + 1) _ hk' mid2.base p hp

theorem aStarLoop_optimal {cfg : Config} {s t : Cell} (hc : HeurConsistent cfg t) :
    ∀ (fuel k : ℕ) (st : AState), k + fuel ≤ MAX_PATHFINDING_ITERATIONS →
      OptInv cfg s t k st →
      ∀ p, (aStarLoop cfg t fuel st).1 = some p →
        ∀ q, IsPath cfg s t q → pathCost p ≤ pathCost q := by
  intro fuel
  induction fuel with
  | zero =>
    intro k st _ _ p hp
    simp [aStarLoop] at hp
  | succ m ih =>
    intro k st hk inv p hp
    cases hsort : sortOpen st with
    | nil => simp [aStarLoop, hsort] at hp
    | cons current rest =>
      by_cases hct : current = t
      · subst hct
        simp only [aStarLoop, hsort, if_pos rfl, Option.some.injEq] at hp
        have hperm : (current :: rest).Perm st.openSet := by
          rw [← hsort]
          exact sortOpen_perm st
        have hcuro : current ∈ st.openSet := hperm.mem_iff.mp (List.mem_cons_self _ _)
        obtain ⟨vt, hgt, _⟩ := inv.open_gf current hcuro
        have hb1 : vt ≤ (141 : ℚ) / 100 * k := inv.gbound current vt hgt
        have hk5 : (k : ℚ) ≤ 5000 := by
          have : k ≤ 5000 := by
            have := hk
            unfold MAX_PATHFINDING_ITERATIONS at this
            omega
          exact_mod_cast this
        have hvt : vt ≤ (7050 : ℚ) := by nlinarith
        obtain ⟨l, hchTo, hh, hl, hcl, hpc, hlen⟩ :=
          chainTo_exists inv.toBaseInv 7050 current vt hgt (by push_cast; linarith)
        have hlenN : l.length ≤ RECON_FUEL + 1 := by
          have h1 : (l.length : ℚ) ≤ 7051 := by linarith
          have h2 : l.length ≤ 7051 := by exact_mod_cast h1
          unfold RECON_FUEL MAX_PATHFINDING_ITERATIONS
          omega
        have hrec := reconstructPath_eq_of_chainTo hchTo RECON_FUEL []
          (by omega)
        rw [hrec] at hp
        simp at hp
        subst hp
        intro q hq
        rw [hpc]
        exact popped_head_opt hc inv hsort q hq vt hgt
      · simp only [aStarLoop, hsort, if_neg hct] at hp
        have mid := pop_establish_opt hc inv hsort
        have mid2 := foldl_expand_opt (getNeighbors cfg.gridType current) [] _
          (fun n hn => hn) mid
        rw [List.nil_append] at mid2
        have hk' : (k + 1) + m ≤ MAX_PATHFINDING_ITERATIONS := by omega
        exact ih (k + 1) _ hk' (mid_to_opt mid2) p hp

theorem findPathAStar_sound {cfg : Config} {s t : Cell} {p : List Cell}
    (hp : findPathAStar cfg s t = some p) :
    p.head? = some s ∧ p.getLast? = some t ∧ List.Chain' (ValidStep cfg) p := by
  unfold findPathAStar findPathAStarIter at hp
  split at hp
  · simp at hp
  · exact aStarLoop_sound MAX_PATHFINDING_ITERATIONS 0 _ (by omega)
      (baseInv_init cfg s t) p hp

theorem findPathAStar_optimal {cfg : Config} {s t : Cell} {p : List Cell}
    (hc : HeurConsistent cfg t) (hp : findPathAStar cfg s t = some p) :
    ∀ q, IsPath cfg s t q → pathCost p ≤ pathCost q := by
  unfold findPathAStar findPathAStarIter at hp
  split at hp
  · simp at hp
  · exact aStarLoop_optimal hc MAX_PATHFINDING_ITERATIONS 0 _ (by omega)
      (optInv_init cfg s t) p hp

theorem findPathAStarIter_le (cfg : Config) (s t : Cell) :
    (findPathAStarIter cfg s t).2 ≤ MAX_PATHFINDING_ITERATIONS := by
  unfold findPathAStarIter
  split
  · simp
  · exact aStarLoop_iter_le cfg t _ _

theorem chain'_tail_rel {α : Type} {R : α → α → Prop} :
    ∀ {p : List α}, List.Chain' R p → ∀ c ∈ p.tail, ∃ a, R a c
  | [], _, c, hc => by simp at hc
  | [_], _, c, hc => by simp at hc
  | a :: b :: rest, h, c, hc => by
    rw [List.chain'_cons] at h
    rcases List.mem_cons.mp hc with rfl | hc'
    · exact ⟨a, h.1⟩
    · exact chain'_tail_rel h.2 c hc'

theorem getGridPath_inv {cfg : Config} {origin destination : Point}
    {path : List Point} (h : getGridPath cfg origin destination = some path) :
    ∃ cells, findPathAStar cfg (cfg.getOffset origin) (cfg.getOffset destination) =
        some cells ∧
      cells.head? = some (cfg.getOffset origin) ∧
      cells.getLast? = some (cfg.getOffset destination) ∧
      List.Chain' (ValidStep cfg) cells ∧
      path = (cells.drop 1).map (cellCenter cfg) := by
  have h' : (match findPathAStar cfg (cfg.getOffset origin) (cfg.getOffset destination) with
      | some p => if p.length > 0 then some ((p.drop 1).map (cellCenter cfg)) else none
      | none => none) = some path := h
  cases hfp : findPathAStar cfg (cfg.getOffset origin) (cfg.getOffset destination) with
  | none => rw [hfp] at h'; simp at h'
  | some cells =>
    rw [hfp] at h'
    have h2 : (if cells.length > 0 then
        some ((cells.drop 1).map (cellCenter cfg)) else none) = some path := h'
    by_cases hl : cells.length > 0
    · rw [if_pos hl] at h2
      obtain ⟨hh, hlast, hch⟩ := findPathAStar_sound hfp
      exact ⟨cells, rfl, hh, hlast, hch, (Option.some.inj h2).symm⟩
    · rw [if_neg hl] at h2
      simp at h2

/-! # The claims -/

/-- C1: corrected.  The original claim asserts cost-optimality of
`findPathAStar` on every topology; on hex grids it fails (the search uses
the Manhattan heuristic, which overestimates hex distances, and
`getMoveCost` charges `1.41` for coordinate-diagonal hex steps), see the
counterexample below.  Amended to square grids, where the claim's move
costs (`1` orthogonal, `1.41` diagonal) coincide with `getMoveCost`: every
path returned by `findPathAStar` on a square grid has minimal cost among
all wall-respecting, in-bounds paths between its endpoints. -/
theorem C1_square_grid_paths_are_optimal (cfg : Config) (s t : Cell) (p : List Cell)
    (hsq : cfg.gridType = .square) (hp : findPathAStar cfg s t = some p) :
    ∀ q, IsPath cfg s t q → pathCost p ≤ pathCost q :=
  findPathAStar_optimal (heurConsistent_square hsq t) hp

/-- Witness for C1 on the plain square scene: the returned straight path
from `(0,0)` to `(0,3)` costs no more than a concrete valid zig-zag
path between the same cells. -/
theorem C1_square_grid_paths_are_optimal_witness :
    pathCost [((0 : ℤ), (0 : ℤ)), (0, 1), (0, 2), (0, 3)] ≤
      pathCost [((0 : ℤ), (0 : ℤ)), (1, 1), (1, 2), (0, 3)] :=
  C1_square_grid_paths_are_optimal sqCfg (0, 0) (0, 3)
    [(0, 0), (0, 1), (0, 2), (0, 3)] rfl (by with_unfolding_all decide)
    [(0, 0), (1, 1), (1, 2), (0, 3)] (by with_unfolding_all decide)

/-- Counterexample to C1 on a hex topology: on the `hexCfg` scene the
search returns a six-step route from `(3,2)` to `(0,0)` although a valid
five-step route exists, which is strictly cheaper both per the claim's hex
cost rule (`1` per step, i.e. fewer steps) and per the code's own
`getMoveCost`. -/
theorem C1_counterexample :
    findPathAStar hexCfg (3, 2) (0, 0) =
      some [(3, 2), (3, 1), (3, 0), (2, 0), (1, 1), (0, 1), (0, 0)] ∧
    IsPath hexCfg (3, 2) (0, 0) [(3, 2), (2, 3), (1, 3), (1, 2), (0, 1), (0, 0)] ∧
    ([(3, 2), (2, 3), (1, 3), (1, 2), (0, 1), (0, 0)] : List Cell).length <
      ([(3, 2), (3, 1), (3, 0), (2, 0), (1, 1), (0, 1), (0, 0)] : List Cell).length ∧
    pathCost [(3, 2), (2, 3), (1, 3), (1, 2), (0, 1), (0, 0)] <
      pathCost [(3, 2), (3, 1), (3, 0), (2, 0), (1, 1), (0, 1), (0, 0)] := by
  refine ⟨?_, ?_, ?_, ?_⟩ <;> with_unfolding_all decide

/-- C2: confirmed.  Every invocation performs at most `5000` loop
iterations (`MAX_PATHFINDING_ITERATIONS`), and the result is either `none`
("no path", which covers open-set exhaustion and budget exhaustion alike —
the caller cannot tell them apart) or a complete valid route: it starts at
the origin, ends exactly at the destination, and every step moves to a
neighbor cell that passes the strict bounds check over an unblocked edge —
never a partial or incorrect route. -/
theorem C2_bounded_iterations_and_complete_routes (cfg : Config) (s t : Cell) :
    (findPathAStarIter cfg s t).2 ≤ MAX_PATHFINDING_ITERATIONS ∧
    ∀ p, findPathAStar cfg s t = some p →
      p.head? = some s ∧ p.getLast? = some t ∧ List.Chain' (ValidStep cfg) p :=
  ⟨findPathAStarIter_le cfg s t, fun _ hp => findPathAStar_sound hp⟩

/-- C3: confirmed.  In the neighbor loop, a wall-blocked neighbor is
skipped with the search state unchanged — in particular it is not added to
the closed set, so it stays expandable from a different adjacent cell —
while a neighbor failing the strict bounds check is skipped and added to
the closed set, permanently excluding it.  Consequently every point of a
path returned to the caller is the center of a cell that passes the strict
bounds check, so a cell wholly outside the scene bounds never appears in a
returned path. -/
theorem C3_wall_skip_vs_bounds_close (cfg : Config) (dest current n : Cell)
    (st : AState) :
    (n ∉ st.closedSet → isGridOffsetWithinBounds cfg n false = true →
      edgeBlocked cfg current n = true →
      expandNeighbor cfg dest current st n = st) ∧
    (n ∉ st.closedSet → isGridOffsetWithinBounds cfg n false = false →
      expandNeighbor cfg dest current st n =
        { st with closedSet := n :: st.closedSet }) ∧
    (∀ origin destination path, getGridPath cfg origin destination = some path →
      ∀ pt ∈ path, ∃ c, isGridOffsetWithinBounds cfg c false = true ∧
        pt = cellCenter cfg c) := by
  refine ⟨fun h1 h2 h3 => expandNeighbor_blocked h1 h2 h3,
    fun h1 h2 => expandNeighbor_oob h1 h2, ?_⟩
  intro origin destination path hp pt hpt
  obtain ⟨cells, _, _, _, hch, hmap⟩ := getGridPath_inv hp
  subst hmap
  obtain ⟨c, hc, rfl⟩ := List.mem_map.mp hpt
  rw [List.drop_one] at hc
  obtain ⟨a, ha⟩ := chain'_tail_rel hch c hc
  exact ⟨c, ha.2.1, rfl⟩

/-- C4: confirmed.  A successful `getGridPath` call returns exactly the
cell-center points of the cell route found by the search with its first
cell removed — inclusive of the destination cell, exclusive of the origin
cell the caller already occupies — and on the plain square scene the
returned path from the cell at `(50,50)` to the cell three squares to the
right has exactly `3` points. -/
theorem C4_returned_path_excludes_origin (cfg : Config)
    (origin destination : Point) :
    (∀ path, getGridPath cfg origin destination = some path →
      ∃ cells, findPathAStar cfg (cfg.getOffset origin) (cfg.getOffset destination) =
          some cells ∧
        cells.head? = some (cfg.getOffset origin) ∧
        cells.getLast? = some (cfg.getOffset destination) ∧
        path = (cells.drop 1).map (cellCenter cfg)) ∧
    getGridPath sqCfg ⟨50, 50⟩ ⟨350, 50⟩ =
      some [⟨150, 50⟩, ⟨250, 50⟩, ⟨350, 50⟩] ∧
    ([(⟨150, 50⟩ : Point), ⟨250, 50⟩, ⟨350, 50⟩]).length = 3 := by
  refine ⟨?_, by with_unfolding_all decide, rfl⟩
  intro path hp
  obtain ⟨cells, hfp, hh, hlast, _, hmap⟩ := getGridPath_inv hp
  exact ⟨cells, hfp, hh, hlast, hmap⟩

/-- C5: corrected.  The original claim says a tap whose pathfinding fails
leaves the session in `AWAITING_DESTINATION` with no preview anchor
retained.  In the code, `previewMovement` commits the raw destination, the
snapped tap anchor and the `PREVIEWING_PATH` state before calling
`showPreview`, and a pathfinding failure only resets the ruler preview and
surfaces `errorMovementBlocked`: the machine stays in `PREVIEWING_PATH`
and keeps the anchor of the failed tap.  Amended: on an in-bounds no-path
tap on a cell different from the token's, the call reports success, the
machine ends in `PREVIEWING_PATH` with the destination and snapped anchor
of the failed tap set, the ruler preview is reset, and the error is
surfaced to the user. -/
theorem C5_failed_preview_keeps_anchor (cfg : Config) (dest : Point)
    (st : SMState) (rp : RPState) (token : Token)
    (hstate : st.currentState = .AWAITING_DESTINATION)
    (hsel : st.selectedToken = some token)
    (hin : isWithinBounds cfg (getGridPosition cfg dest) = true)
    (hnopath : getGridPath cfg (getGridPosition cfg ⟨token.x, token.y⟩)
      (getGridPosition cfg dest) = none)
    (hdiff : cfg.getOffset (getGridPosition cfg ⟨token.x, token.y⟩) ≠
      cfg.getOffset (getGridPosition cfg dest)) :
    previewMovement cfg dest st rp =
      (true,
        { st with
            previewDestination := some dest,
            lastTapPosition := some (getGridPosition cfg dest),
            currentState := .PREVIEWING_PATH },
        initRPState, [.errorMovementBlocked]) := by
  unfold previewMovement showPreview
  rw [hstate, hsel]
  simp only [clearPreview, hin, hnopath, hdiff]
  simp

/-- Witness for C5 on the walled 3-by-3 scene: a tap on the sealed center
cell from the corner cell. -/
theorem C5_failed_preview_keeps_anchor_witness :
    previewMovement c5Cfg ⟨150, 150⟩
        { currentState := .AWAITING_DESTINATION, selectedToken := some ⟨1, 50, 50⟩,
          previewDestination := none, lastTapPosition := none } initRPState =
      (true,
        { currentState := .PREVIEWING_PATH, selectedToken := some ⟨1, 50, 50⟩,
          previewDestination := some ⟨150, 150⟩,
          lastTapPosition := some (getGridPosition c5Cfg ⟨150, 150⟩) },
        initRPState, [.errorMovementBlocked]) :=
  C5_failed_preview_keeps_anchor c5Cfg ⟨150, 150⟩
    { currentState := .AWAITING_DESTINATION, selectedToken := some ⟨1, 50, 50⟩,
      previewDestination := none, lastTapPosition := none }
    initRPState ⟨1, 50, 50⟩ rfl rfl (by with_unfolding_all decide)
    (by with_unfolding_all decide) (by with_unfolding_all decide)

/-- Counterexample to C5: after a tap on the walled-off center cell of the
3-by-3 scene (the pathfinder reports no path, and the origin cell differs
from the destination cell), the machine is left in `PREVIEWING_PATH` — not
`AWAITING_DESTINATION` — and the snapped anchor of the failed tap is
retained. -/
theorem C5_counterexample :
    getGridPath c5Cfg ⟨50, 50⟩ ⟨150, 150⟩ = none ∧
    (previewMovement c5Cfg ⟨150, 150⟩
        { currentState := .AWAITING_DESTINATION, selectedToken := some ⟨1, 50, 50⟩,
          previewDestination := none, lastTapPosition := none }
        initRPState).2.1.currentState = .PREVIEWING_PATH ∧
    (previewMovement c5Cfg ⟨150, 150⟩
        { currentState := .AWAITING_DESTINATION, selectedToken := some ⟨1, 50, 50⟩,
          previewDestination := none, lastTapPosition := none }
        initRPState).2.1.lastTapPosition = some ⟨150, 150⟩ := by
  refine ⟨?_, ?_, ?_⟩ <;> with_unfolding_all decide

/-- C6: corrected.  The destination bounds check is indeed run in lenient
mode, and the lenient check accepts exactly the cells with a nonempty
geometric overlap with the scene bounds, even when the cell center lies
outside the scene rectangle — that part of the claim is the equivalence
proved here.  But the claim's conclusion that such edge-of-map
destinations "remain reachable" fails: the search expands every neighbor
under the strict center-tolerance check, so a lenient-only destination
cell is closed as out of bounds and no path to it is ever found (see the
counterexample).  Amended: the lenient destination check equals the
spec's partial-overlap predicate. -/
theorem C6_lenient_check_is_partial_overlap (cfg : Config) (b : Rect) (off : Cell)
    (hge : cfg.geomError = false) (hb : cfg.bounds = some b) :
    (isGridOffsetWithinBounds cfg off true = true ↔ cellOverlapsScene cfg b off) := by
  have h1 : isGridOffsetWithinBounds cfg off true =
      (if qmax (cfg.topLeft off).x b.x ≥
            qmin ((cfg.topLeft off).x + cfg.gridSize) (b.x + b.width) ∨
          qmax (cfg.topLeft off).y b.y ≥
            qmin ((cfg.topLeft off).y + cfg.gridSize) (b.y + b.height)
        then false else true) := by
    unfold isGridOffsetWithinBounds
    rw [hge, hb]
    rfl
  rw [h1]
  unfold cellOverlapsScene
  by_cases hx : qmax (cfg.topLeft off).x b.x ≥
      qmin ((cfg.topLeft off).x + cfg.gridSize) (b.x + b.width) ∨
    qmax (cfg.topLeft off).y b.y ≥
      qmin ((cfg.topLeft off).y + cfg.gridSize) (b.y + b.height)
  · rw [if_pos hx]
    simp only [Bool.false_eq_true, false_iff]
    intro hcon
    rcases hx with hx | hx
    · exact absurd hcon.1 (not_lt.mpr hx)
    · exact absurd hcon.2 (not_lt.mpr hx)
  · rw [if_neg hx]
    push_neg at hx
    exact iff_of_true rfl ⟨hx.1, hx.2⟩

/-- Witness for C6: the cell `(0,2)` of the 210-unit-wide scene overlaps
the scene bounds by a 10-unit strip, so the spec's partial-overlap
predicate holds for it — obtained from the lenient check through the
equivalence. -/
theorem C6_lenient_check_is_partial_overlap_witness :
    cellOverlapsScene c6Cfg ⟨0, 0, 210, 100⟩ (0, 2) :=
  (C6_lenient_check_is_partial_overlap c6Cfg ⟨0, 0, 210, 100⟩ (0, 2) rfl rfl).mp
    (by with_unfolding_all decide)

/-- Counterexample to C6: the cell `(0,2)` of the 210-unit-wide scene has
partial overlap with the scene bounds and the lenient check accepts it,
but its center `(250, 50)` lies beyond the strict tolerance, so the strict
check rejects it — and pathfinding from the directly adjacent in-bounds
cell `(0,1)` returns no path: the edge-of-map destination is not
reachable. -/
theorem C6_counterexample :
    cellOverlapsScene c6Cfg ⟨0, 0, 210, 100⟩ ((0 : ℤ), (2 : ℤ)) ∧
    isGridOffsetWithinBounds c6Cfg (0, 2) true = true ∧
    isGridOffsetWithinBounds c6Cfg (0, 2) false = false ∧
    findPathAStar c6Cfg (0, 1) (0, 2) = none := by
  refine ⟨?_, ?_, ?_, ?_⟩ <;> with_unfolding_all decide

/-- C7: confirmed.  With movement permission granted and a lock held by a
different user: a non-GM caller fails against a lock younger than five
minutes (`300000` ms) with `infoTokenLocked` and no state change, succeeds
against a lock at least five minutes old, and a GM caller always succeeds,
surfacing `infoOverridingLock`, whatever the lock's age.  Success selects
the token, re-locks the document for the caller at the current time and
moves the machine to `AWAITING_DESTINATION`. -/
theorem C7_lock_guard_staleness_and_gm_bypass (user : User) (now : ℤ)
    (doc : TokenDoc) (st : SMState) (lock : LockData)
    (hperm : canMoveToken user doc = true)
    (hlock : doc.lockedBy = some lock)
    (hdiff : lock.userId ≠ user.id) :
    (user.isGM = false → now - lock.timestamp < 300000 →
      selectToken user now doc st = (false, st, doc, [.infoTokenLocked])) ∧
    (user.isGM = false → 300000 ≤ now - lock.timestamp →
      selectToken user now doc st =
        (true,
          { st with
              selectedToken := some doc.token,
              currentState := .AWAITING_DESTINATION,
              previewDestination := none },
          { doc with lockedBy := some ⟨user.id, now⟩ }, [])) ∧
    (user.isGM = true →
      selectToken user now doc st =
        (true,
          { st with
              selectedToken := some doc.token,
              currentState := .AWAITING_DESTINATION,
              previewDestination := none },
          { doc with lockedBy := some ⟨user.id, now⟩ }, [.infoOverridingLock])) := by
  refine ⟨fun hgm hage => ?_, fun hgm hage => ?_, fun hgm => ?_⟩
  · simp [selectToken, hperm, hlock, hdiff, hgm, hage]
  · simp [selectToken, hperm, hlock, hdiff, hgm, not_lt.mpr hage]
  · simp [selectToken, hperm, hlock, hdiff, hgm]

/-- Witness for C7: user `2` without GM rights, against a lock of user `1`
acquired at time `0`, fails at time `1000` with `infoTokenLocked` and no
change of state or document. -/
theorem C7_lock_guard_staleness_and_gm_bypass_witness :
    selectToken ⟨2, false⟩ 1000 ⟨⟨7, 50, 50⟩, true, some ⟨1, 0⟩⟩ initSMState =
      (false, initSMState, ⟨⟨7, 50, 50⟩, true, some ⟨1, 0⟩⟩, [.infoTokenLocked]) :=
  (C7_lock_guard_staleness_and_gm_bypass ⟨2, false⟩ 1000
      ⟨⟨7, 50, 50⟩, true, some ⟨1, 0⟩⟩ initSMState ⟨1, 0⟩ rfl rfl
      (by decide)).1 rfl (by decide)

/-- C8: the code bug behind the idempotency claim.  The socket-lock
constructor creates `this.lockedTokens = new Set()`, but `lockToken` calls
`.set(tokenId, userId)` on it — a `Map` method that `Set.prototype` does
not provide — so every lock broadcast throws a `TypeError` instead of
recording the lock; duplicate lock delivery therefore never reaches an
idempotent update at all.  `unlockToken` uses `.delete`, which a `Set`
does have: it succeeds, and deleting twice equals deleting once. -/
theorem C8_lockToken_throws_on_set_store :
    (∀ tid uid, lockToken mkStateMachine2 tid uid =
      .error (.typeError "this.lockedTokens.set is not a function")) ∧
    (∀ st tid, ∃ st2, unlockToken st tid = .ok st2 ∧
      unlockToken st2 tid = .ok st2) := by
  constructor
  · intro tid uid
    rfl
  · intro st tid
    cases st with
    | mk c =>
      cases c with
      | jsSet es =>
        refine ⟨⟨.jsSet (es.filter fun e => e ≠ tid)⟩, rfl, ?_⟩
        simp only [unlockToken, JSColl.callDelete, List.filter_filter,
          Bool.and_self]
        rfl
      | jsMap es =>
        refine ⟨⟨.jsMap (es.filter fun e => e.1 ≠ tid)⟩, rfl, ?_⟩
        simp only [unlockToken, JSColl.callDelete, List.filter_filter,
          Bool.and_self]
        rfl

/-- C9: corrected.  The original claim says the edge-crossing check
reached mid-search fails open (the edge treated as crossable) on a
geometry error.  In the code, `isBlockedByWalls` catches the error and
returns `true` ("assume blocked to be safe"), so the mid-search edge check
fails closed: every neighbor edge is treated as blocked and the search
finds no path at all (see the counterexample).  Amended: on a geometry
error the edge-crossing check fails closed, the top-level collision query
`isPathClear` fails closed (`false`, blocked), and the bounds check fails
open (the cell is treated as in bounds), so the error never aborts the
search — it degrades to "no path". -/
theorem C9_geometry_error_asymmetry (cfg : Config) (pa pb : Point) (off : Cell)
    (lenient : Bool) (walls : List Wall) (wp : List Point)
    (herr : cfg.geomError = true) :
    isBlockedByWalls cfg pa pb = true ∧
    isGridOffsetWithinBounds cfg off lenient = true ∧
    (2 ≤ wp.length → isPathClear true true walls wp = false) := by
  refine ⟨?_, ?_, fun hlen => ?_⟩
  · simp [isBlockedByWalls, herr]
  · simp [isGridOffsetWithinBounds, herr]
  · simp [isPathClear, Nat.not_lt.mpr hlen]

/-- Witness for C9 under the failing geometry oracle: the edge check
reports blocked, the bounds check reports in bounds, and the top-level
collision query reports not clear. -/
theorem C9_geometry_error_asymmetry_witness :
    isBlockedByWalls errCfg ⟨0, 0⟩ ⟨100, 0⟩ = true ∧
    isGridOffsetWithinBounds errCfg (5, 5) false = true ∧
    (2 ≤ ([⟨0, 0⟩, ⟨100, 0⟩] : List Point).length →
      isPathClear true true [] [⟨0, 0⟩, ⟨100, 0⟩] = false) :=
  C9_geometry_error_asymmetry errCfg ⟨0, 0⟩ ⟨100, 0⟩ (5, 5) false []
    [⟨0, 0⟩, ⟨100, 0⟩] rfl

/-- Counterexample to C9: with the geometry oracle failing, the mid-search
edge check reports every edge as blocked — it fails closed, not open — and
in consequence the search cannot even step between two adjacent,
unobstructed, in-bounds cells. -/
theorem C9_counterexample :
    isBlockedByWalls errCfg ⟨50, 50⟩ ⟨150, 50⟩ = true ∧
    edgeBlocked errCfg (0, 0) (0, 1) = true ∧
    findPathAStar errCfg (0, 0) (0, 1) = none := by
  refine ⟨?_, ?_, ?_⟩ <;> with_unfolding_all decide

/-- C10: confirmed.  While the module is enabled, the machine is in
`PREVIEWING_PATH` and the update concerns the machine's selected token, a
token-document update initiated by a different user is vetoed — the
`preUpdateToken` hook returns `false` — so no remote change is applied to
the previewed token during preview; an update initiated by the session's
own user is always allowed through, whatever the state. -/
theorem C10_preview_vetoes_remote_updates (enabled : Bool) (st : SMState)
    (token : Token) (tokenDocId userId myId : ℕ) :
    (enabled = true → st.selectedToken = some token → token.id = tokenDocId →
      st.currentState = .PREVIEWING_PATH → userId ≠ myId →
      preUpdateToken enabled st tokenDocId userId myId = false) ∧
    (userId = myId → preUpdateToken enabled st tokenDocId userId myId = true) := by
  constructor
  · intro hen hsel hid hstate hneq
    simp [preUpdateToken, hen, hsel, hid, hstate, hneq]
  · intro heq
    subst heq
    simp [preUpdateToken]

end SharedControl
